import Mathlib

/-!
# The onmetal machine driver: deletion, listing and provider-spec validation

A shallow embedding of `pkg/onmetal/delete_machine.go` and
`pkg/onmetal/list_machines.go`, together with the validation rules exercised by
`pkg/api/validation/validation_test.go`.

* The backend client is a state machine over an arbitrary state type: every call
  maps the backend state to a response and a successor state, so a backend may
  answer each call as it likes.  Each call made by the driver is appended, with
  its response, to a log.
* Go pointers that may be nil are `Option`s; a nil dereference is the failure
  `Failure.nilDereference`.
* Durations and instants are natural numbers of nanoseconds, as in `time.Duration`;
  instant 0 is the start of the call.
* Backend calls take no time, so the confirmation poll of `DeleteMachine` starts at
  instant 0 and fetch number `k` happens at instant `k * interval`.
* The caller's context is live when the call starts and may end at any later
  instant.  When it ends on the very instant of a timer tick, either may be seen
  first; the context records which.
* Constants and functions of the repository that the two operations use but that
  are not in the embedded files are parameters (`Helpers`).
-/

namespace Onmetal

/-! ## Status codes and errors -/

/-- The machine codes the driver returns (`machinecodes/codes`). -/
inductive Code where
  | InvalidArgument
  | NotFound
  | DeadlineExceeded
  | Unknown
  | Internal
  deriving DecidableEq, Repr

/-- Name of a code as printed by the codes package. -/
def Code.toString : Code → String
  | .InvalidArgument => "InvalidArgument"
  | .NotFound => "NotFound"
  | .DeadlineExceeded => "DeadlineExceeded"
  | .Unknown => "Unknown"
  | .Internal => "Internal"

/-- A classified error: the value built by `status.Error(code, msg)`. -/
structure Status where
  code : Code
  message : String
  deriving DecidableEq, Repr

/-- The constructor `status.Error(code, msg)` of the machine codes library. -/
def status.Error (c : Code) (msg : String) : Status := ⟨c, msg⟩

/-- The text of a classified error (`(*Status).Error()` of the machine codes
library). -/
def Status.Error (s : Status) : String :=
  "machine codes error: code = [" ++ s.code.toString ++ "] message = [" ++ s.message ++ "]"

/-- An error returned by the backend client: whether `apierrors.IsNotFound`
holds of it, and its text. -/
structure ApiError where
  notFound : Bool
  text : String
  deriving DecidableEq, Repr

/-- The predicate `apierrors.IsNotFound(err)` on a non-nil error. -/
def apierrors.IsNotFound (e : ApiError) : Bool := e.notFound

/-- The filter `client.IgnoreNotFound(err)`: nil for nil and for not-found errors. -/
def client.IgnoreNotFound (err : Option ApiError) : Option ApiError :=
  match err with
  | none => none
  | some e => if apierrors.IsNotFound e then none else some e

/-- Why a call of the driver failed: with a classified error, or by dereferencing
a nil pointer. -/
inductive Failure where
  | status (s : Status)
  | nilDereference
  deriving DecidableEq, Repr

/-! ## Objects and requests -/

/-- Name and namespace of a backend object. -/
structure ObjectKey where
  Namespace : String
  Name : String
  deriving DecidableEq, Repr

/-- The two kinds of backend object the delete path addresses. -/
inductive ObjectKind where
  | Secret
  | Machine
  deriving DecidableEq, Repr

/-- The backend machine object (`computev1alpha1.Machine`), by the attributes the
driver reads. -/
structure computev1alpha1.Machine where
  Namespace : String
  Name : String
  Labels : List (String × String)
  deriving DecidableEq, Repr

/-- The machine of the calling controller (`v1alpha1.Machine`). -/
structure machinev1alpha1.Machine where
  Name : String
  deriving DecidableEq, Repr

/-- The machine class of the calling controller (`v1alpha1.MachineClass`). -/
structure machinev1alpha1.MachineClass where
  Name : String
  Provider : String
  ProviderSpec : String
  deriving DecidableEq, Repr

/-- A secret (`corev1.Secret`): its data entries; an entry may hold a nil byte slice. -/
structure corev1.Secret where
  Data : List (String × Option (List Nat))
  deriving DecidableEq, Repr

/-- The request of `DeleteMachine`; every field is a pointer. -/
structure driver.DeleteMachineRequest where
  Machine : Option machinev1alpha1.Machine
  MachineClass : Option machinev1alpha1.MachineClass
  Secret : Option corev1.Secret
  deriving DecidableEq, Repr

/-- The empty response of `DeleteMachine`. -/
structure driver.DeleteMachineResponse where
  deriving DecidableEq, Repr

/-- The request of `ListMachines`. -/
structure driver.ListMachinesRequest where
  MachineClass : Option machinev1alpha1.MachineClass
  Secret : Option corev1.Secret
  deriving DecidableEq, Repr

/-- The response of `ListMachines`: the mapping from external ID to machine name,
kept as a list of entries with pairwise distinct keys. -/
structure driver.ListMachinesResponse where
  MachineList : List (String × String)
  deriving DecidableEq, Repr

/-! ## The backend client -/

/-- Result of a backend list call. -/
inductive ListResult where
  | items (ms : List computev1alpha1.Machine)
  | failed (e : ApiError)
  deriving DecidableEq, Repr

/-- One backend call together with the response it got. -/
inductive Event where
  | Delete (kind : ObjectKind) (key : ObjectKey) (res : Option ApiError)
  | Get (key : ObjectKey) (res : Option ApiError)
  | List (ns : String) (labels : List (String × String)) (res : ListResult)
  deriving DecidableEq, Repr

/-- The backend client (`client.Client`) as a state machine on the backend state. -/
structure Client (σ : Type) where
  Delete : ObjectKind → ObjectKey → σ → Option ApiError × σ
  Get : ObjectKey → σ → Option ApiError × σ
  ListItems : String → List (String × String) → σ → ListResult × σ

/-- The backend state together with the log of the calls made so far. -/
structure World (σ : Type) where
  backend : σ
  calls : List Event

/-- Perform `Delete` and log it. -/
def World.Delete {σ : Type} (c : Client σ) (kind : ObjectKind) (key : ObjectKey)
    (w : World σ) : Option ApiError × World σ :=
  let r := c.Delete kind key w.backend
  (r.1, ⟨r.2, w.calls ++ [Event.Delete kind key r.1]⟩)

/-- Perform `Get` and log it. -/
def World.Get {σ : Type} (c : Client σ) (key : ObjectKey)
    (w : World σ) : Option ApiError × World σ :=
  let r := c.Get key w.backend
  (r.1, ⟨r.2, w.calls ++ [Event.Get key r.1]⟩)

/-- Perform `List` and log it. -/
def World.ListItems {σ : Type} (c : Client σ) (ns : String) (labels : List (String × String))
    (w : World σ) : ListResult × World σ :=
  let r := c.ListItems ns labels w.backend
  (r.1, ⟨r.2, w.calls ++ [Event.List ns labels r.1]⟩)

/-! ## Contexts and the polling loop of `k8s.io/apimachinery/pkg/util/wait` -/

/-- The two errors of a finished context. -/
inductive CtxError where
  | Canceled
  | DeadlineExceeded
  deriving DecidableEq, Repr

/-- Text of a context error. -/
def CtxError.Error : CtxError → String
  | .Canceled => "context canceled"
  | .DeadlineExceeded => "context deadline exceeded"

/-- The caller's context.  It is live when the call starts; `doneAt` is the instant,
strictly after the start of the call, at which it is done (never, when `none`),
`cause` the error it then reports, and `tickFirst` tells how the scheduler orders a
timer tick that falls on the very instant at which a context is done (when true,
the tick is served and the context still reads as live). -/
structure Context where
  doneAt : Option PNat
  cause : CtxError
  tickFirst : Bool
  deriving DecidableEq, Repr

/-- A context with a deadline, as built by `context.WithTimeout`. -/
structure DeadlineContext where
  instant : Nat
  cause : CtxError
  tickFirst : Bool
  deriving DecidableEq, Repr

/-- The context `context.WithTimeout(parent, timeout)` built at instant 0: done at
the earlier of the parent's end and the timeout. -/
def WithTimeout (parent : Context) (timeout : Nat) : DeadlineContext :=
  match parent.doneAt with
  | none => ⟨timeout, .DeadlineExceeded, parent.tickFirst⟩
  | some d =>
    if (d : Nat) ≤ timeout then ⟨(d : Nat), parent.cause, parent.tickFirst⟩
    else ⟨timeout, .DeadlineExceeded, parent.tickFirst⟩

/-- The value of `ctx.Err()` at instant `now`. -/
def DeadlineContext.Err (ctx : DeadlineContext) (now : Nat) : Option CtxError :=
  if ctx.instant < now ∨ (ctx.instant = now ∧ ctx.tickFirst = false) then some ctx.cause
  else none

/-- The error a poll returns: the condition's own error or the context's. -/
inductive PollError where
  | condition (s : Status)
  | context (e : CtxError)
  deriving DecidableEq, Repr

/-- Text of a poll error. -/
def PollError.Error : PollError → String
  | .condition s => s.Error
  | .context e => e.Error

/-- Modelled from the spec: the fixed polling interval of section 4.3, as the timer
of the wait library (`k8s.io/apimachinery/pkg/util/wait`, not among the sources)
realises it: the instants of the ticks of a ticker of period `interval` started at
instant 0 that do not come after `deadline`. -/
def tickInstants (interval deadline : Nat) : List Nat :=
  (List.range (deadline / interval)).map (fun k => (k + 1) * interval)

/-- Modelled from the spec: the confirmation-polling loop of section 4.3, step 3,
which the code gets from the wait library (`loopConditionUntilContext` of
`k8s.io/apimachinery/pkg/util/wait`, not among the sources).  At instant `now` the
loop checks the context, runs the condition, and then waits for the next tick or
the end of the context, whichever comes first.  It ends without error when the
condition reports done, with the condition's error when it reports one, and with
the context's error when the context is done.  `ticks` are the instants of the
ticks still to come that are not later than the end of the context: a later tick
is never served, the end of the context comes first. -/
def loopConditionUntilContext {σ : Type} (ctx : DeadlineContext)
    (condition : World σ → (Bool × Option Status) × World σ) :
    List Nat → Nat → World σ → Option PollError × World σ
  | ticks, now, w =>
    match ctx.Err now with
    | some e => (some (.context e), w)
    | none =>
      match condition w with
      | ((_, some e), w1) => (some (.condition e), w1)
      | ((true, none), w1) => (none, w1)
      | ((false, none), w1) =>
        match ticks with
        | [] => (some (.context ctx.cause), w1)
        | t :: ts => loopConditionUntilContext ctx condition ts t w1

/-- Modelled from the spec: the bounded poll of section 4.3, step 3, which the code
gets from the wait library (`wait.PollUntilContextTimeout(ctx, interval, timeout,
immediate, condition)` of `k8s.io/apimachinery/pkg/util/wait`, not among the
sources), for a strictly positive interval: the loop runs under the caller's
context cut off at `timeout`, at once when `immediate` is set and from the first
tick on otherwise. -/
def PollUntilContextTimeout {σ : Type} (ctx : Context) (interval timeout : Nat)
    (immediate : Bool) (condition : World σ → (Bool × Option Status) × World σ)
    (w : World σ) : Option PollError × World σ :=
  let deadlineCtx := WithTimeout ctx timeout
  let ticks := tickInstants interval deadlineCtx.instant
  if immediate then loopConditionUntilContext deadlineCtx condition ticks 0 w
  else
    match ticks with
    | [] => (some (.context deadlineCtx.cause), w)
    | t :: ts => loopConditionUntilContext deadlineCtx condition ts t w

/-- One second, in nanoseconds (`time.Second`). -/
def Second : Nat := 1000000000

/-- One minute, in nanoseconds (`time.Minute`). -/
def Minute : Nat := 60 * Second

/-! ## Provider spec -/

/-- A network address (`netip.Addr`); `zero` is the zero value `netip.Addr{}`,
which is no valid address. -/
inductive Addr where
  | zero
  | v4 (bits : Nat)
  | v6 (bits : Nat) (zone : String)
  deriving DecidableEq, Repr

/-- The method `netip.Addr.IsValid`. -/
def Addr.IsValid : Addr → Bool
  | .zero => false
  | _ => true

/-- The root disk of a provider spec. -/
structure RootDisk where
  VolumeClassName : String
  Size : Nat
  deriving DecidableEq, Repr

/-- The provider spec (`v1alpha1.ProviderSpec`), by the fields the driver and the
validation read. -/
structure ProviderSpec where
  Image : String
  RootDisk : Option RootDisk
  NetworkName : String
  PrefixName : String
  DnsServers : List Addr
  Labels : List (String × String)
  deriving DecidableEq, Repr

/-! ## Go maps with string keys -/

/-- The assignment `m[k] = v` on a map kept as a list of entries: an entry with the
same key is replaced. -/
def mapSet (m : List (String × String)) (k v : String) : List (String × String) :=
  (k, v) :: m.filter (fun e => e.1 != k)

/-- The lookup `m[k]`. -/
def mapGet (m : List (String × String)) (k : String) : Option String :=
  (m.find? (fun e => e.1 == k)).map Prod.snd

/-! ## The driver -/

/-- The driver: its backend client and the namespace it works in. -/
structure onmetalDriver (σ : Type) where
  OnmetelClient : Client σ
  OnmetalNamespace : String

/-- Declarations of this repository that the two operations use and that are not
part of the embedded files; they are parameters of the embedding. -/
structure Helpers where
  ProviderName : String
  getIgnitionNameForMachine : String → String
  getProviderIDForOnmetalMachine : computev1alpha1.Machine → String
  validateProviderSpecAndSecret :
    machinev1alpha1.MachineClass → Option corev1.Secret → Except String ProviderSpec

/-- The check `isEmptyDeleteRequest`. -/
def isEmptyDeleteRequest (req : Option driver.DeleteMachineRequest) : Bool :=
  match req with
  | none => true
  | some r => r.MachineClass.isNone || r.Machine.isNone || r.Secret.isNone

/-- The polling interval passed by `DeleteMachine`. -/
def pollInterval : Nat := 5 * Second

/-- The polling timeout passed by `DeleteMachine`. -/
def pollTimeout : Nat := 10 * Minute

/-- The condition polled by `DeleteMachine`: fetch the machine; done when it is
not found, an error for any other failure, not done while it is still there. -/
def deleteCondition {σ : Type} (d : onmetalDriver σ) (key : ObjectKey)
    (w : World σ) : (Bool × Option Status) × World σ :=
  match World.Get d.OnmetelClient key w with
  | (some err, w1) =>
    if apierrors.IsNotFound err then ((true, none), w1)
    else ((false, some (status.Error .Unknown err.text)), w1)
  | (none, w1) => ((false, none), w1)

/-- The operation `DeleteMachine`.  Logging is left out.  The last branch of the
match stands for a nil dereference; `isEmptyDeleteRequest` keeps the call from it. -/
def DeleteMachine {σ : Type} (h : Helpers) (d : onmetalDriver σ) (ctx : Context)
    (req : Option driver.DeleteMachineRequest) (w : World σ) :
    Except Failure driver.DeleteMachineResponse × World σ :=
  if isEmptyDeleteRequest req then
    (.error (.status (status.Error .InvalidArgument "received empty request")), w)
  else
    match req with
    | some ⟨some machine, some machineClass, some _⟩ =>
      if machineClass.Provider != h.ProviderName then
        (.error (.status (status.Error .InvalidArgument
          ("requested provider '" ++ machineClass.Provider
            ++ "' is not suppored by the driver '" ++ h.ProviderName ++ "'"))), w)
      else
        let ignitionSecret : ObjectKey :=
          ⟨d.OnmetalNamespace, h.getIgnitionNameForMachine machine.Name⟩
        match World.Delete d.OnmetelClient .Secret ignitionSecret w with
        | (err, w1) =>
          match client.IgnoreNotFound err with
          | some e =>
            (.error (.status (status.Error .Unknown
              ("error deleting ignition secret: " ++ e.text))), w1)
          | none =>
            let onmetalMachine : ObjectKey := ⟨d.OnmetalNamespace, machine.Name⟩
            match World.Delete d.OnmetelClient .Machine onmetalMachine w1 with
            | (some e, w2) =>
              if !apierrors.IsNotFound e then
                (.error (.status (status.Error .Unknown ("error deleting pod: " ++ e.text))), w2)
              else
                (.error (.status (status.Error .NotFound e.text)), w2)
            | (none, w2) =>
              match PollUntilContextTimeout ctx pollInterval pollTimeout true
                  (deleteCondition d onmetalMachine) w2 with
              | (some e, w3) =>
                (.error (.status (status.Error .DeadlineExceeded e.Error)), w3)
              | (none, w3) => (.ok {}, w3)
    | _ => (.error .nilDereference, w)

/-- The operation `ListMachines`.  Logging is left out.  The request and its machine
class are dereferenced unchecked: the last branch is the nil dereference. -/
def ListMachines {σ : Type} (h : Helpers) (d : onmetalDriver σ)
    (req : Option driver.ListMachinesRequest) (w : World σ) :
    Except Failure driver.ListMachinesResponse × World σ :=
  match req with
  | some ⟨some machineClass, secret⟩ =>
    if machineClass.Provider != h.ProviderName then
      (.error (.status (status.Error .InvalidArgument
        ("requested provider '" ++ machineClass.Provider
          ++ "' is not suppored by the driver '" ++ h.ProviderName ++ "'"))), w)
    else
      match h.validateProviderSpecAndSecret machineClass secret with
      | .error err =>
        (.error (.status (status.Error .InvalidArgument
          ("provider spec for requested provider '" ++ machineClass.Provider
            ++ "' is invalid: " ++ err))), w)
      | .ok providerSpec =>
        let matchingLabels := providerSpec.Labels.foldl (fun m kv => mapSet m kv.1 kv.2) []
        match World.ListItems d.OnmetelClient d.OnmetalNamespace matchingLabels w with
        | (.failed err, w1) => (.error (.status (status.Error .Internal err.text)), w1)
        | (.items onmetalMachineList, w1) =>
          let machineList := onmetalMachineList.foldl
            (fun m machine => mapSet m (h.getProviderIDForOnmetalMachine machine) machine.Name) []
          (.ok ⟨machineList⟩, w1)
  | _ => (.error .nilDereference, w)

/-! ## Provider-spec and secret validation (`pkg/api/validation`) -/

/-- One element of a field path: a child name or an index. -/
inductive PathElement where
  | name (n : String)
  | index (i : Nat)
  deriving DecidableEq, Repr

/-- A field path (`*field.Path`), from its root; the nil path is the empty list. -/
abbrev Path := List PathElement

/-- The method `Child` of a field path. -/
def Path.Child (p : Path) (name : String) : Path := p ++ [.name name]

/-- The method `Index` of a field path. -/
def Path.Index (p : Path) (i : Nat) : Path := p ++ [.index i]

/-- Text of the elements of a path: names are separated by dots, indices stand in
brackets. -/
def renderElements : Bool → List PathElement → String
  | _, [] => ""
  | atRoot, .name n :: rest => (if atRoot then "" else ".") ++ n ++ renderElements false rest
  | _, .index i :: rest => "[" ++ toString i ++ "]" ++ renderElements false rest

/-- Text of a field path. -/
def Path.toString (p : Path) : String := renderElements true p

/-- The two kinds of field error the validation produces. -/
inductive ErrorType where
  | Required
  | Invalid
  deriving DecidableEq, Repr

/-- The offending value a field error carries. -/
inductive BadValue where
  | text (s : String)
  | addr (a : Addr)
  deriving DecidableEq, Repr

/-- A field error (`field.Error`). -/
structure FieldError where
  Kind : ErrorType
  Field : String
  BadValue : BadValue
  Detail : String
  deriving DecidableEq, Repr

/-- The constructor `field.Required(path, detail)`. -/
def field.Required (p : Path) (detail : String) : FieldError :=
  ⟨.Required, p.toString, .text "", detail⟩

/-- The constructor `field.Invalid(path, value, detail)`. -/
def field.Invalid (p : Path) (value : BadValue) (detail : String) : FieldError :=
  ⟨.Invalid, p.toString, value, detail⟩

/-- Modelled from the spec: the secret rules of `ValidateProviderSpecAndSecret`
(pkg/api/validation, of which only the test is among the sources).  A missing
secret yields the single error Required at `spec.secretRef` and no further secret
check; otherwise the `userData` entry must be present and non-empty. -/
def validateSecret (secret : Option corev1.Secret) (fldPath : Path) : List FieldError :=
  match secret with
  | none => [field.Required ((fldPath.Child "spec").Child "secretRef") "secretRef is required"]
  | some s =>
    match List.lookup "userData" s.Data with
    | some (some (_ :: _)) => []
    | _ => [field.Required (fldPath.Child "userData") "userData is required"]

/-- Modelled from the spec: the DNS-server rule of `ValidateProviderSpecAndSecret`
(pkg/api/validation, of which only the test is among the sources): every entry
that is the zero-value address yields Invalid at the entry's indexed path, with
message "ip is invalid". -/
def validateDnsServers (fldPath : Path) : Nat → List Addr → List FieldError
  | _, [] => []
  | i, ip :: rest =>
    (if ip.IsValid then [] else [field.Invalid (fldPath.Index i) (.addr ip) "ip is invalid"])
      ++ validateDnsServers fldPath (i + 1) rest

/-- Modelled from the spec: the provider-spec rules of `ValidateProviderSpecAndSecret`
(pkg/api/validation, of which only the test is among the sources): image, root-disk
volume class name (of a root disk that is there), network name and prefix name
must be non-empty, and every DNS server must be a valid address. -/
def validateProviderSpec (spec : ProviderSpec) (fldPath : Path) : List FieldError :=
  (if spec.Image = "" then [field.Required (fldPath.Child "image") "image is required"]
    else [])
  ++ (match spec.RootDisk with
      | some rootDisk =>
        if rootDisk.VolumeClassName = "" then
          [field.Required ((fldPath.Child "rootDisk").Child "volumeClassName")
            "volumeClassName is required"]
        else []
      | none => [])
  ++ (if spec.NetworkName = "" then
        [field.Required (fldPath.Child "networkName") "networkName is required"]
      else [])
  ++ (if spec.PrefixName = "" then
        [field.Required (fldPath.Child "prefixName") "prefixName is required"]
      else [])
  ++ validateDnsServers (fldPath.Child "dnsServers") 0 spec.DnsServers

/-- Modelled from the spec: `ValidateProviderSpecAndSecret` of pkg/api/validation,
of which only the test is among the sources: the errors of the secret rules
followed by those of the provider-spec rules, all collected. -/
def ValidateProviderSpecAndSecret (spec : ProviderSpec) (secret : Option corev1.Secret)
    (fldPath : Path) : List FieldError :=
  validateSecret secret fldPath ++ validateProviderSpec spec (fldPath.Child "spec")

/-! ## Observations on an execution -/

/-- Backend state before fetch number `j` (counted from 0) of a run of consecutive
fetches of `key` that starts in state `s`. -/
def fetchState {σ : Type} (c : Client σ) (key : ObjectKey) (s : σ) : Nat → σ
  | 0 => s
  | j + 1 => fetchState c key (c.Get key s).2 j

/-- Response to fetch number `j` of such a run. -/
def fetchResult {σ : Type} (c : Client σ) (key : ObjectKey) (s : σ) (j : Nat) :
    Option ApiError :=
  (c.Get key (fetchState c key s j)).1

/-- The log entries of the first `n` fetches of such a run. -/
def fetchLog {σ : Type} (c : Client σ) (key : ObjectKey) (s : σ) : Nat → List Event
  | 0 => []
  | n + 1 => Event.Get key (c.Get key s).1 :: fetchLog c key (c.Get key s).2 n

/-- The first fetch among the first `n` that does not find the object present:
its number and the error it reports. -/
def firstAnswer {σ : Type} (c : Client σ) (key : ObjectKey) : Nat → σ → Option (Nat × ApiError)
  | 0, _ => none
  | n + 1, s =>
    match (c.Get key s).1 with
    | some e => some (0, e)
    | none => (firstAnswer c key n (c.Get key s).2).map (fun p => (p.1 + 1, p.2))

/-- How many times the loop started at instant `now`, with the ticks `ticks` still
to come, finds the context live and so runs its condition, when the condition
never ends the loop. -/
def attemptsAllowed (ctx : DeadlineContext) : List Nat → Nat → Nat
  | [], now => if (ctx.Err now).isSome then 0 else 1
  | t :: ts, now => if (ctx.Err now).isSome then 0 else attemptsAllowed ctx ts t + 1

/-- Whether an entry of the call log is a fetch. -/
def Event.isGet : Event → Bool
  | .Get _ _ => true
  | _ => false

/-- What the poll returns after the fetches came out as `firstAnswer` says. -/
def pollVerdict (cause : CtxError) : Option (Nat × ApiError) → Option PollError
  | none => some (.context cause)
  | some (_, e) =>
    if apierrors.IsNotFound e then none else some (.condition (status.Error .Unknown e.text))

/-- How many fetches the poll made. -/
def pollFetches (n : Nat) : Option (Nat × ApiError) → Nat
  | none => n
  | some (k, _) => k + 1

/-- Fetch number `k` of a poll of period `interval` falls before the end of the
context: its instant `k * interval` is before the end, or on it with the tick
served first. -/
def fetchInTime (ctx : DeadlineContext) (interval k : Nat) : Prop :=
  k * interval < ctx.instant ∨ (k * interval = ctx.instant ∧ ctx.tickFirst = true)

instance (ctx : DeadlineContext) (interval k : Nat) : Decidable (fetchInTime ctx interval k) :=
  inferInstanceAs
    (Decidable (k * interval < ctx.instant ∨ (k * interval = ctx.instant ∧ ctx.tickFirst = true)))

/-- Key of the ignition secret that `DeleteMachine` deletes for machine `m`. -/
def ignitionSecretKey {σ : Type} (h : Helpers) (d : onmetalDriver σ)
    (m : machinev1alpha1.Machine) : ObjectKey :=
  ⟨d.OnmetalNamespace, h.getIgnitionNameForMachine m.Name⟩

/-- Key of the backend machine object of machine `m`. -/
def onmetalMachineKey {σ : Type} (d : onmetalDriver σ) (m : machinev1alpha1.Machine) :
    ObjectKey :=
  ⟨d.OnmetalNamespace, m.Name⟩

/-- The backend's answer to the deletion of the ignition secret of `m` in state `s`,
with the state it leaves. -/
def secretDelete {σ : Type} (h : Helpers) (d : onmetalDriver σ) (m : machinev1alpha1.Machine)
    (s : σ) : Option ApiError × σ :=
  d.OnmetelClient.Delete .Secret (ignitionSecretKey h d m) s

/-- The backend's answer to the deletion of the machine object of `m`, requested
right after the deletion of its ignition secret in state `s`. -/
def machineDelete {σ : Type} (h : Helpers) (d : onmetalDriver σ) (m : machinev1alpha1.Machine)
    (s : σ) : Option ApiError × σ :=
  d.OnmetelClient.Delete .Machine (onmetalMachineKey d m) (secretDelete h d m s).2

/-- The context that governs the confirmation poll of `DeleteMachine`. -/
def pollContext (ctx : Context) : DeadlineContext := WithTimeout ctx pollTimeout

/-- How many fetches the confirmation poll of `DeleteMachine` can make under `ctx`. -/
def pollAttempts (ctx : Context) : Nat :=
  attemptsAllowed (pollContext ctx) (tickInstants pollInterval (pollContext ctx).instant) 0

/-- The answer of the confirmation poll of machine `m`, started after both deletions. -/
def pollAnswer {σ : Type} (h : Helpers) (d : onmetalDriver σ) (ctx : Context)
    (m : machinev1alpha1.Machine) (s : σ) : Option (Nat × ApiError) :=
  firstAnswer d.OnmetelClient (onmetalMachineKey d m) (pollAttempts ctx) (machineDelete h d m s).2

/-- What `DeleteMachine` returns once the poll has returned. -/
def afterPoll : Option PollError → Except Failure driver.DeleteMachineResponse
  | some e => .error (.status (status.Error .DeadlineExceeded e.Error))
  | none => .ok {}

/-- The driver `d` over a backend that differs in one respect only: deleting a
secret reports success, and leaves the state that the deletion leaves in `d`. -/
def secretDeleteSucceeds {σ : Type} (d : onmetalDriver σ) : onmetalDriver σ :=
  ⟨⟨fun kind key s =>
      match kind with
      | .Secret => (none, (d.OnmetelClient.Delete .Secret key s).2)
      | .Machine => d.OnmetelClient.Delete .Machine key s,
    d.OnmetelClient.Get, d.OnmetelClient.ListItems⟩, d.OnmetalNamespace⟩

/-- The mapping `ListMachines` builds from the listed machine objects. -/
def buildMachineList (h : Helpers) (items : List computev1alpha1.Machine) :
    List (String × String) :=
  items.foldl (fun m machine => mapSet m (h.getProviderIDForOnmetalMachine machine) machine.Name) []

/-! ## Example inputs -/

/-- Example helpers: provider "onmetal", ignition secrets named `ignition-<machine>`,
external IDs of the form `onmetal://<namespace>/<name>`, and a provider-spec
validation that accepts every class. -/
def exampleHelpers : Helpers :=
  ⟨"onmetal", fun name => "ignition-" ++ name,
    fun mm => "onmetal://" ++ mm.Namespace ++ "/" ++ mm.Name,
    fun _ _ => .ok ⟨"image", some ⟨"fast", 10⟩, "net", "pool", [], []⟩⟩

/-- A backend that counts the calls made to it and answers each kind of call with
a fixed response. -/
def fixedClient (secretAnswer machineAnswer getAnswer : Option ApiError)
    (listAnswer : ListResult) : Client Nat :=
  ⟨fun kind _ n =>
      match kind with
      | .Secret => (secretAnswer, n + 1)
      | .Machine => (machineAnswer, n + 1),
    fun _ n => (getAnswer, n + 1),
    fun _ _ n => (listAnswer, n + 1)⟩

/-- The example driver over a fixed-response backend, in namespace "ns". -/
def fixedDriver (secretAnswer machineAnswer getAnswer : Option ApiError)
    (listAnswer : ListResult) : onmetalDriver Nat :=
  ⟨fixedClient secretAnswer machineAnswer getAnswer listAnswer, "ns"⟩

/-- A not-found error of the backend. -/
def notFoundError : ApiError := ⟨true, "not found"⟩

/-- Some other error of the backend. -/
def otherError : ApiError := ⟨false, "boom"⟩

/-- A machine class of the driver's provider. -/
def exampleClass : machinev1alpha1.MachineClass := ⟨"class", "onmetal", ""⟩

/-- A machine class of a foreign provider. -/
def foreignClass : machinev1alpha1.MachineClass := ⟨"class", "aws", ""⟩

/-- A well-formed delete request for machine "m1". -/
def m1Request : Option driver.DeleteMachineRequest :=
  some ⟨some ⟨"m1"⟩, some exampleClass, some ⟨[]⟩⟩

/-- A caller context that is never cancelled. -/
def background : Context := ⟨none, .Canceled, false⟩

/-- A list request of the driver's provider. -/
def listRequest : Option driver.ListMachinesRequest := some ⟨some exampleClass, some ⟨[]⟩⟩

/-- Two machine objects of namespace "ns" with different names. -/
def twoMachines : List computev1alpha1.Machine :=
  [⟨"ns", "m1", []⟩, ⟨"ns", "m2", []⟩]

/-- The provider spec of the validation test: every field empty, an empty root
disk, and the zero-value address as only DNS server. -/
def emptySpec : ProviderSpec := ⟨"", some ⟨"", 0⟩, "", "", [Addr.zero], []⟩

/-! ## Lemmas -/

theorem DeadlineContext.Err_eq_some {ctx : DeadlineContext} {now : Nat} {e : CtxError}
    (h : ctx.Err now = some e) : e = ctx.cause := by
  unfold DeadlineContext.Err at h
  split at h
  · exact (Option.some.inj h).symm
  · cases h

theorem fetchLog_succ_last {σ : Type} (c : Client σ) (key : ObjectKey) (n : Nat) (s : σ) :
    fetchLog c key s (n + 1)
      = fetchLog c key s n ++ [Event.Get key (fetchResult c key s n)] := by
  induction n generalizing s with
  | zero => simp [fetchLog, fetchResult, fetchState]
  | succ n ih =>
    rw [fetchLog, ih (c.Get key s).2]
    simp [fetchLog, fetchResult, fetchState]

/-- The loop, run with the condition of `DeleteMachine`, in closed form. -/
theorem loop_deleteCondition {σ : Type} (ctx : DeadlineContext) (d : onmetalDriver σ)
    (key : ObjectKey) (ticks : List Nat) (now : Nat) (s : σ) (l : List Event) :
    loopConditionUntilContext ctx (deleteCondition d key) ticks now ⟨s, l⟩
      = (pollVerdict ctx.cause (firstAnswer d.OnmetelClient key (attemptsAllowed ctx ticks now) s),
          ⟨fetchState d.OnmetelClient key s
              (pollFetches (attemptsAllowed ctx ticks now)
                (firstAnswer d.OnmetelClient key (attemptsAllowed ctx ticks now) s)),
            l ++ fetchLog d.OnmetelClient key s
              (pollFetches (attemptsAllowed ctx ticks now)
                (firstAnswer d.OnmetelClient key (attemptsAllowed ctx ticks now) s))⟩) := by
  induction ticks generalizing now s l with
  | nil =>
    unfold loopConditionUntilContext attemptsAllowed
    cases hE : ctx.Err now with
    | some e =>
      simp [firstAnswer, pollVerdict, pollFetches, fetchState, fetchLog,
        DeadlineContext.Err_eq_some hE]
    | none =>
      simp only [deleteCondition, World.Get]
      cases hG : (d.OnmetelClient.Get key s).1 with
      | none =>
        simp [firstAnswer, hG, pollVerdict, pollFetches, fetchState, fetchLog]
      | some e =>
        by_cases hnf : apierrors.IsNotFound e = true
        · simp [firstAnswer, hG, pollVerdict, pollFetches, fetchState, fetchLog, hnf]
        · simp [firstAnswer, hG, pollVerdict, pollFetches, fetchState, fetchLog, hnf]
  | cons t ts ih =>
    unfold loopConditionUntilContext attemptsAllowed
    cases hE : ctx.Err now with
    | some e =>
      simp [firstAnswer, pollVerdict, pollFetches, fetchState, fetchLog,
        DeadlineContext.Err_eq_some hE]
    | none =>
      simp only [deleteCondition, World.Get]
      cases hG : (d.OnmetelClient.Get key s).1 with
      | none =>
        simp only [ih]
        cases hF : firstAnswer d.OnmetelClient key (attemptsAllowed ctx ts t)
            (d.OnmetelClient.Get key s).2 with
        | none => simp [firstAnswer, hG, hF, pollVerdict, pollFetches, fetchState, fetchLog]
        | some p => simp [firstAnswer, hG, hF, pollVerdict, pollFetches, fetchState, fetchLog]
      | some e =>
        by_cases hnf : apierrors.IsNotFound e = true
        · simp [firstAnswer, hG, pollVerdict, pollFetches, fetchState, fetchLog, hnf]
        · simp [firstAnswer, hG, pollVerdict, pollFetches, fetchState, fetchLog, hnf]

theorem fetchResult_zero {σ : Type} (c : Client σ) (key : ObjectKey) (s : σ) :
    fetchResult c key s 0 = (c.Get key s).1 := rfl

theorem fetchResult_succ {σ : Type} (c : Client σ) (key : ObjectKey) (s : σ) (j : Nat) :
    fetchResult c key s (j + 1) = fetchResult c key (c.Get key s).2 j := rfl

theorem firstAnswer_eq_none {σ : Type} (c : Client σ) (key : ObjectKey) (n : Nat) (s : σ) :
    firstAnswer c key n s = none ↔ ∀ j, j < n → fetchResult c key s j = none := by
  induction n generalizing s with
  | zero => simp [firstAnswer]
  | succ n ih =>
    unfold firstAnswer
    cases hG : (c.Get key s).1 with
    | some e =>
      simp only [false_iff, reduceCtorEq]
      intro hall
      have h0 := hall 0 (Nat.succ_pos n)
      rw [fetchResult_zero, hG] at h0
      cases h0
    | none =>
      simp only [Option.map_eq_none']
      rw [ih]
      constructor
      · intro hall j hj
        cases j with
        | zero => rw [fetchResult_zero, hG]
        | succ j => rw [fetchResult_succ]; exact hall j (Nat.lt_of_succ_lt_succ hj)
      · intro hall j hj
        have := hall (j + 1) (Nat.succ_lt_succ hj)
        rwa [fetchResult_succ] at this

theorem firstAnswer_eq_some {σ : Type} (c : Client σ) (key : ObjectKey) (n : Nat) (s : σ)
    (k : Nat) (e : ApiError) :
    firstAnswer c key n s = some (k, e)
      ↔ k < n ∧ fetchResult c key s k = some e ∧ ∀ j, j < k → fetchResult c key s j = none := by
  induction n generalizing s k with
  | zero => simp [firstAnswer]
  | succ n ih =>
    unfold firstAnswer
    cases hG : (c.Get key s).1 with
    | some e0 =>
      constructor
      · intro heq
        simp only [Option.some.injEq, Prod.mk.injEq] at heq
        obtain ⟨hk, he⟩ := heq
        subst hk; subst he
        refine ⟨Nat.succ_pos n, ?_, ?_⟩
        · rw [fetchResult_zero, hG]
        · intro j hj; exact absurd hj (Nat.not_lt_zero j)
      · rintro ⟨_, hk, hall⟩
        cases k with
        | zero =>
          rw [fetchResult_zero, hG] at hk
          simp only [Option.some.injEq] at hk
          simp [hk]
        | succ k =>
          have h0 := hall 0 (Nat.succ_pos k)
          rw [fetchResult_zero, hG] at h0
          cases h0
    | none =>
      constructor
      · intro heq
        simp only [Option.map_eq_some', Prod.mk.injEq, Prod.exists] at heq
        obtain ⟨k0, e1, hfa, hk, he⟩ := heq
        subst hk; subst he
        obtain ⟨h1, h2, h3⟩ := (ih _ _).1 hfa
        refine ⟨Nat.succ_lt_succ h1, ?_, ?_⟩
        · rw [fetchResult_succ]; exact h2
        · intro j hj
          cases j with
          | zero => rw [fetchResult_zero, hG]
          | succ j => rw [fetchResult_succ]; exact h3 j (Nat.lt_of_succ_lt_succ hj)
      · rintro ⟨hk, hr, hall⟩
        cases k with
        | zero =>
          rw [fetchResult_zero, hG] at hr
          cases hr
        | succ k =>
          have := (ih (c.Get key s).2 k).2 ⟨Nat.lt_of_succ_lt_succ hk, by rwa [fetchResult_succ] at hr,
            fun j hj => by
              have := hall (j + 1) (Nat.succ_lt_succ hj)
              rwa [fetchResult_succ] at this⟩
          simp [this]

theorem fetchLog_present {σ : Type} (c : Client σ) (key : ObjectKey) (n : Nat) (s : σ)
    (hall : ∀ j, j < n → fetchResult c key s j = none) :
    fetchLog c key s n = List.replicate n (Event.Get key none) := by
  induction n generalizing s with
  | zero => rfl
  | succ n ih =>
    have h0 := hall 0 (Nat.succ_pos n)
    rw [fetchResult_zero] at h0
    rw [fetchLog, h0, List.replicate_succ, ih]
    intro j hj
    have := hall (j + 1) (Nat.succ_lt_succ hj)
    rwa [fetchResult_succ] at this

theorem attemptsAllowed_lt_iff (ctx : DeadlineContext) (ticks : List Nat) (now k : Nat) :
    k < attemptsAllowed ctx ticks now
      ↔ ∀ j, j ≤ k → ∃ t, (now :: ticks)[j]? = some t ∧ ctx.Err t = none := by
  induction ticks generalizing now k with
  | nil =>
    unfold attemptsAllowed
    cases hE : ctx.Err now with
    | some e =>
      simp only [Option.isSome_some, if_true, Nat.not_lt_zero, false_iff]
      intro hall
      obtain ⟨t, ht, hErr⟩ := hall 0 (Nat.zero_le k)
      simp only [List.getElem?_cons_zero, Option.some.injEq] at ht
      subst ht
      rw [hE] at hErr
      cases hErr
    | none =>
      simp only [Option.isSome_none, Bool.false_eq_true, if_false]
      constructor
      · intro hk j hj
        have hj0 : j = 0 := by omega
        subst hj0
        exact ⟨now, by simp, hE⟩
      · intro hall
        by_contra hk
        obtain ⟨t, ht, _⟩ := hall 1 (by omega)
        simp at ht
  | cons t0 ts ih =>
    unfold attemptsAllowed
    cases hE : ctx.Err now with
    | some e =>
      simp only [Option.isSome_some, if_true, Nat.not_lt_zero, false_iff]
      intro hall
      obtain ⟨t, ht, hErr⟩ := hall 0 (Nat.zero_le k)
      simp only [List.getElem?_cons_zero, Option.some.injEq] at ht
      subst ht
      rw [hE] at hErr
      cases hErr
    | none =>
      simp only [Option.isSome_none, Bool.false_eq_true, if_false]
      cases k with
      | zero =>
        simp only [Nat.zero_lt_succ, true_iff]
        intro j hj
        have hj0 : j = 0 := by omega
        subst hj0
        exact ⟨now, by simp, hE⟩
      | succ k =>
        rw [Nat.succ_lt_succ_iff, ih]
        constructor
        · intro hall j hj
          cases j with
          | zero => exact ⟨now, by simp, hE⟩
          | succ j =>
            obtain ⟨t, ht, hErr⟩ := hall j (by omega)
            exact ⟨t, by simpa using ht, hErr⟩
        · intro hall j hj
          obtain ⟨t, ht, hErr⟩ := hall (j + 1) (by omega)
          exact ⟨t, by simpa using ht, hErr⟩

theorem tickSchedule_getElem? (interval deadline j : Nat) :
    (0 :: tickInstants interval deadline)[j]?
      = if j ≤ deadline / interval then some (j * interval) else none := by
  cases j with
  | zero => simp
  | succ j =>
    simp only [List.getElem?_cons_succ, tickInstants, List.getElem?_map, List.getElem?_range]
    by_cases hj : j < deadline / interval
    · have : j + 1 ≤ deadline / interval := hj
      simp [List.getElem?_range, hj, this]
    · have : ¬ j + 1 ≤ deadline / interval := hj
      simp [List.getElem?_range, this, Nat.le_of_not_lt hj]

theorem attemptsAllowed_schedule (ctx : DeadlineContext) (interval : Nat) (hpos : 0 < interval)
    (k : Nat) :
    k < attemptsAllowed ctx (tickInstants interval ctx.instant) 0 ↔ fetchInTime ctx interval k := by
  rw [attemptsAllowed_lt_iff]
  unfold fetchInTime
  constructor
  · intro hall
    obtain ⟨t, ht, hErr⟩ := hall k (Nat.le_refl k)
    rw [tickSchedule_getElem?] at ht
    split at ht
    · simp only [Option.some.injEq] at ht
      subst ht
      unfold DeadlineContext.Err at hErr
      split at hErr
      · cases hErr
      · rename_i hne
        by_cases hlt : k * interval < ctx.instant
        · exact Or.inl hlt
        · right
          have heq : ctx.instant = k * interval := by
            by_contra hneq
            exact hne (Or.inl (by omega))
          refine ⟨heq.symm, ?_⟩
          cases htf : ctx.tickFirst with
          | true => rfl
          | false => exact absurd (Or.inr ⟨heq, htf⟩) hne
    · cases ht
  · intro hk j hj
    have hle : k * interval ≤ ctx.instant := by
      rcases hk with hk | hk
      · omega
      · omega
    have hjk : j * interval ≤ k * interval := Nat.mul_le_mul_right interval hj
    refine ⟨j * interval, ?_, ?_⟩
    · rw [tickSchedule_getElem?]
      have : j ≤ ctx.instant / interval := (Nat.le_div_iff_mul_le hpos).2 (by omega)
      simp [this]
    · unfold DeadlineContext.Err
      have hno : ¬ (ctx.instant < j * interval ∨ (ctx.instant = j * interval ∧ ctx.tickFirst = false)) := by
        rintro (hlt | ⟨heq, htf⟩)
        · omega
        · rcases hk with hk | ⟨_, hk⟩
          · omega
          · rw [hk] at htf; cases htf
      simp [hno]

theorem pollInterval_pos : 0 < pollInterval := by decide

theorem pollContext_instant_pos (ctx : Context) : 0 < (pollContext ctx).instant := by
  unfold pollContext WithTimeout
  cases ctx.doneAt with
  | none => exact (show 0 < pollTimeout by decide)
  | some d =>
    dsimp only
    split
    · exact d.pos
    · exact (show 0 < pollTimeout by decide)

theorem fetchInTime_zero (ctx : Context) : fetchInTime (pollContext ctx) pollInterval 0 := by
  left
  rw [Nat.zero_mul]
  exact pollContext_instant_pos ctx

theorem pollAttempts_lt_iff (ctx : Context) (k : Nat) :
    k < pollAttempts ctx ↔ fetchInTime (pollContext ctx) pollInterval k :=
  attemptsAllowed_schedule (pollContext ctx) pollInterval pollInterval_pos k

theorem poll_deleteCondition {σ : Type} (d : onmetalDriver σ) (ctx : Context) (key : ObjectKey)
    (s : σ) (l : List Event) :
    PollUntilContextTimeout ctx pollInterval pollTimeout true (deleteCondition d key) ⟨s, l⟩
      = (pollVerdict (pollContext ctx).cause
            (firstAnswer d.OnmetelClient key (pollAttempts ctx) s),
          ⟨fetchState d.OnmetelClient key s
              (pollFetches (pollAttempts ctx) (firstAnswer d.OnmetelClient key (pollAttempts ctx) s)),
            l ++ fetchLog d.OnmetelClient key s
              (pollFetches (pollAttempts ctx)
                (firstAnswer d.OnmetelClient key (pollAttempts ctx) s))⟩) := by
  unfold PollUntilContextTimeout
  simp only [if_true]
  rw [loop_deleteCondition]
  rfl

theorem DeleteMachine_polled {σ : Type} (h : Helpers) (d : onmetalDriver σ) (ctx : Context)
    (m : machinev1alpha1.Machine) (mc : machinev1alpha1.MachineClass) (sec : corev1.Secret)
    (s : σ) (l : List Event)
    (hp : mc.Provider = h.ProviderName)
    (hs : client.IgnoreNotFound (secretDelete h d m s).1 = none)
    (hm : (machineDelete h d m s).1 = none) :
    DeleteMachine h d ctx (some ⟨some m, some mc, some sec⟩) ⟨s, l⟩
      = (afterPoll (pollVerdict (pollContext ctx).cause (pollAnswer h d ctx m s)),
          ⟨fetchState d.OnmetelClient (onmetalMachineKey d m) (machineDelete h d m s).2
              (pollFetches (pollAttempts ctx) (pollAnswer h d ctx m s)),
            l ++ [Event.Delete .Secret (ignitionSecretKey h d m) (secretDelete h d m s).1,
                  Event.Delete .Machine (onmetalMachineKey d m) none]
              ++ fetchLog d.OnmetelClient (onmetalMachineKey d m) (machineDelete h d m s).2
                  (pollFetches (pollAttempts ctx) (pollAnswer h d ctx m s))⟩) := by
  unfold secretDelete ignitionSecretKey at hs
  unfold machineDelete secretDelete ignitionSecretKey onmetalMachineKey at hm
  simp only [DeleteMachine, isEmptyDeleteRequest, Option.isNone_some, Bool.or_self,
    Bool.false_eq_true, if_false, hp, bne_self_eq_false, World.Delete, hs, hm,
    poll_deleteCondition]
  unfold pollAnswer machineDelete secretDelete onmetalMachineKey ignitionSecretKey
  cases hv : pollVerdict (pollContext ctx).cause
      (firstAnswer d.OnmetelClient ⟨d.OnmetalNamespace, m.Name⟩ (pollAttempts ctx)
        (d.OnmetelClient.Delete .Machine ⟨d.OnmetalNamespace, m.Name⟩
          (d.OnmetelClient.Delete .Secret
            ⟨d.OnmetalNamespace, h.getIgnitionNameForMachine m.Name⟩ s).2).2) with
  | none => simp [afterPoll, hm]
  | some e => simp [afterPoll, hm]

theorem DeleteMachine_empty {σ : Type} (h : Helpers) (d : onmetalDriver σ) (ctx : Context)
    (req : Option driver.DeleteMachineRequest) (w : World σ)
    (he : isEmptyDeleteRequest req = true) :
    DeleteMachine h d ctx req w
      = (.error (.status (status.Error .InvalidArgument "received empty request")), w) := by
  simp [DeleteMachine, he]

theorem DeleteMachine_provider {σ : Type} (h : Helpers) (d : onmetalDriver σ) (ctx : Context)
    (m : machinev1alpha1.Machine) (mc : machinev1alpha1.MachineClass) (sec : corev1.Secret)
    (w : World σ) (hp : mc.Provider ≠ h.ProviderName) :
    DeleteMachine h d ctx (some ⟨some m, some mc, some sec⟩) w
      = (.error (.status (status.Error .InvalidArgument
          ("requested provider '" ++ mc.Provider
            ++ "' is not suppored by the driver '" ++ h.ProviderName ++ "'"))), w) := by
  simp [DeleteMachine, isEmptyDeleteRequest, hp]

theorem DeleteMachine_secretFailed {σ : Type} (h : Helpers) (d : onmetalDriver σ) (ctx : Context)
    (m : machinev1alpha1.Machine) (mc : machinev1alpha1.MachineClass) (sec : corev1.Secret)
    (s : σ) (l : List Event) (e : ApiError)
    (hp : mc.Provider = h.ProviderName)
    (hs : client.IgnoreNotFound (secretDelete h d m s).1 = some e) :
    DeleteMachine h d ctx (some ⟨some m, some mc, some sec⟩) ⟨s, l⟩
      = (.error (.status (status.Error .Unknown ("error deleting ignition secret: " ++ e.text))),
          ⟨(secretDelete h d m s).2,
            l ++ [Event.Delete .Secret (ignitionSecretKey h d m) (secretDelete h d m s).1]⟩) := by
  unfold secretDelete ignitionSecretKey at hs
  simp only [DeleteMachine, isEmptyDeleteRequest, Option.isNone_some, Bool.or_self,
    Bool.false_eq_true, if_false, hp, bne_self_eq_false, World.Delete, hs]
  rfl

theorem DeleteMachine_machineFailed {σ : Type} (h : Helpers) (d : onmetalDriver σ)
    (ctx : Context) (m : machinev1alpha1.Machine) (mc : machinev1alpha1.MachineClass)
    (sec : corev1.Secret) (s : σ) (l : List Event) (e : ApiError)
    (hp : mc.Provider = h.ProviderName)
    (hs : client.IgnoreNotFound (secretDelete h d m s).1 = none)
    (hm : (machineDelete h d m s).1 = some e) :
    DeleteMachine h d ctx (some ⟨some m, some mc, some sec⟩) ⟨s, l⟩
      = (.error (.status (if apierrors.IsNotFound e then status.Error .NotFound e.text
            else status.Error .Unknown ("error deleting pod: " ++ e.text))),
          ⟨(machineDelete h d m s).2,
            l ++ [Event.Delete .Secret (ignitionSecretKey h d m) (secretDelete h d m s).1,
                  Event.Delete .Machine (onmetalMachineKey d m) (some e)]⟩) := by
  unfold secretDelete ignitionSecretKey at hs
  unfold machineDelete secretDelete ignitionSecretKey onmetalMachineKey at hm
  simp only [DeleteMachine, isEmptyDeleteRequest, Option.isNone_some, Bool.or_self,
    Bool.false_eq_true, if_false, hp, bne_self_eq_false, World.Delete, hs, hm]
  unfold machineDelete secretDelete onmetalMachineKey ignitionSecretKey
  cases hnf : apierrors.IsNotFound e <;> simp [hm]

theorem isEmptyDeleteRequest_eq_false (req : Option driver.DeleteMachineRequest) :
    isEmptyDeleteRequest req = false
      ↔ ∃ m mc sec, req = some ⟨some m, some mc, some sec⟩ := by
  constructor
  · intro he
    cases req with
    | none => simp [isEmptyDeleteRequest] at he
    | some r =>
      obtain ⟨m, mc, sec⟩ := r
      cases m <;> cases mc <;> cases sec <;> simp [isEmptyDeleteRequest] at he
      exact ⟨_, _, _, rfl⟩
  · rintro ⟨m, mc, sec, rfl⟩
    rfl

theorem pollVerdict_eq_none (cause : CtxError) (a : Option (Nat × ApiError)) :
    pollVerdict cause a = none ↔ ∃ k e, a = some (k, e) ∧ apierrors.IsNotFound e = true := by
  cases a with
  | none => simp [pollVerdict]
  | some p =>
    obtain ⟨k, e⟩ := p
    by_cases hnf : apierrors.IsNotFound e = true
    · simp only [pollVerdict, hnf, if_true, true_iff]
      exact ⟨k, e, rfl, hnf⟩
    · simp only [pollVerdict, hnf, if_false, false_iff, reduceCtorEq, Bool.false_eq_true]
      rintro ⟨k1, e1, heq, hnf1⟩
      simp only [Option.some.injEq, Prod.mk.injEq] at heq
      rw [← heq.2] at hnf1
      exact hnf hnf1

theorem afterPoll_eq_ok (r : Option PollError) : afterPoll r = .ok {} ↔ r = none := by
  cases r <;> simp [afterPoll]

theorem afterPoll_classified (r : Option PollError) :
    afterPoll r = .ok {} ∨ ∃ st, afterPoll r = .error (.status st) ∧ st.code = .DeadlineExceeded := by
  cases r with
  | none => exact Or.inl rfl
  | some e => exact Or.inr ⟨_, rfl, rfl⟩

theorem fetchState_congr {σ : Type} (c1 c2 : Client σ) (hg : c1.Get = c2.Get) (key : ObjectKey)
    (n : Nat) (s : σ) : fetchState c1 key s n = fetchState c2 key s n := by
  induction n generalizing s with
  | zero => rfl
  | succ n ih => rw [fetchState, fetchState, hg, ih]

theorem fetchLog_congr {σ : Type} (c1 c2 : Client σ) (hg : c1.Get = c2.Get) (key : ObjectKey)
    (n : Nat) (s : σ) : fetchLog c1 key s n = fetchLog c2 key s n := by
  induction n generalizing s with
  | zero => rfl
  | succ n ih => rw [fetchLog, fetchLog, hg, ih]

theorem firstAnswer_congr {σ : Type} (c1 c2 : Client σ) (hg : c1.Get = c2.Get) (key : ObjectKey)
    (n : Nat) (s : σ) : firstAnswer c1 key n s = firstAnswer c2 key n s := by
  induction n generalizing s with
  | zero => rfl
  | succ n ih => rw [firstAnswer, firstAnswer, hg, ih]

theorem pollContext_background (ctx : Context) (hc : ctx.doneAt = none) :
    pollContext ctx = ⟨pollTimeout, .DeadlineExceeded, ctx.tickFirst⟩ := by
  simp [pollContext, WithTimeout, hc]

theorem pollAttempts_background (ctx : Context) (hc : ctx.doneAt = none) :
    120 ≤ pollAttempts ctx ∧ pollAttempts ctx ≤ 121 := by
  have hiff := pollAttempts_lt_iff ctx
  rw [pollContext_background ctx hc] at hiff
  constructor
  · have h119 : 119 < pollAttempts ctx := (hiff 119).2 (Or.inl (show 119 * pollInterval < pollTimeout by decide))
    exact h119
  · have h121 : ¬ 121 < pollAttempts ctx := by
      intro hlt
      rcases (hiff 121).1 hlt with hlt | ⟨heq, _⟩
      · exact absurd hlt (show ¬ 121 * pollInterval < pollTimeout by decide)
      · exact absurd heq (show ¬ 121 * pollInterval = pollTimeout by decide)
    exact Nat.le_of_not_lt h121

theorem mapSet_keys (m : List (String × String)) (k v : String) :
    (mapSet m k v).map Prod.fst = k :: (m.map Prod.fst).filter (fun x => x != k) := by
  simp [mapSet, List.filter_map, Function.comp_def]

theorem mapSet_keys_nodup (m : List (String × String)) (k v : String)
    (hm : (m.map Prod.fst).Nodup) : ((mapSet m k v).map Prod.fst).Nodup := by
  rw [mapSet_keys]
  refine List.nodup_cons.2 ⟨?_, hm.filter _⟩
  simp [List.mem_filter]

theorem mem_mapSet (m : List (String × String)) (k v : String) (p : String × String) :
    p ∈ mapSet m k v ↔ p = (k, v) ∨ (p ∈ m ∧ p.1 ≠ k) := by
  simp [mapSet, List.mem_filter]

theorem foldl_mapSet_keys_nodup {α : Type} (f g : α → String) (xs : List α)
    (acc : List (String × String)) (hacc : (acc.map Prod.fst).Nodup) :
    ((xs.foldl (fun m x => mapSet m (f x) (g x)) acc).map Prod.fst).Nodup := by
  induction xs generalizing acc with
  | nil => exact hacc
  | cons x xs ih => exact ih _ (mapSet_keys_nodup acc (f x) (g x) hacc)

theorem foldl_mapSet_mem_keys {α : Type} (f g : α → String) (xs : List α)
    (acc : List (String × String)) (k : String) :
    k ∈ (xs.foldl (fun m x => mapSet m (f x) (g x)) acc).map Prod.fst
      ↔ k ∈ acc.map Prod.fst ∨ ∃ x, x ∈ xs ∧ f x = k := by
  induction xs generalizing acc with
  | nil => simp
  | cons x xs ih =>
    rw [List.foldl_cons, ih, mapSet_keys]
    simp only [List.mem_cons, List.mem_filter, bne_iff_ne, ne_eq, exists_eq_or_imp]
    by_cases hk : k = f x
    · subst hk; simp
    · have hk2 : ¬ f x = k := fun hc => hk hc.symm
      simp [hk, hk2]

theorem foldl_mapSet_mem {α : Type} (f g : α → String) (xs : List α)
    (acc : List (String × String)) (p : String × String)
    (hp : p ∈ xs.foldl (fun m x => mapSet m (f x) (g x)) acc) :
    p ∈ acc ∨ ∃ x, x ∈ xs ∧ f x = p.1 ∧ g x = p.2 := by
  induction xs generalizing acc with
  | nil => exact Or.inl hp
  | cons x xs ih =>
    rw [List.foldl_cons] at hp
    rcases ih _ hp with hmem | ⟨y, hy, hf, hg⟩
    · rcases (mem_mapSet _ _ _ _).1 hmem with heq | ⟨hin, _⟩
      · exact Or.inr ⟨x, List.mem_cons_self _ _, by rw [heq], by rw [heq]⟩
      · exact Or.inl hin
    · exact Or.inr ⟨y, List.mem_cons_of_mem _ hy, hf, hg⟩

theorem mapGet_of_mem (m : List (String × String)) (hm : (m.map Prod.fst).Nodup)
    (k v : String) (hkv : (k, v) ∈ m) : mapGet m k = some v := by
  induction m with
  | nil => cases hkv
  | cons p m ih =>
    rw [List.map_cons, List.nodup_cons] at hm
    rcases List.mem_cons.1 hkv with heq | hin
    · subst heq
      simp [mapGet, List.find?_cons]
    · have hne : ¬ p.1 = k := by
        intro hc
        apply hm.1
        rw [hc]
        exact List.mem_map.2 ⟨(k, v), hin, rfl⟩
      have := ih hm.2 hin
      simp only [mapGet] at this ⊢
      simp [List.find?_cons, hne, this]

theorem nodup_keys_length (m : List (String × String)) (hm : (m.map Prod.fst).Nodup) :
    m.length = (m.map Prod.fst).toFinset.card := by
  rw [List.toFinset_card_of_nodup hm, List.length_map]

theorem buildMachineList_keys (h : Helpers) (items : List computev1alpha1.Machine) (k : String) :
    k ∈ (buildMachineList h items).map Prod.fst
      ↔ ∃ mm, mm ∈ items ∧ h.getProviderIDForOnmetalMachine mm = k := by
  unfold buildMachineList
  rw [foldl_mapSet_mem_keys h.getProviderIDForOnmetalMachine (fun mm => mm.Name)]
  simp

theorem buildMachineList_nodup (h : Helpers) (items : List computev1alpha1.Machine) :
    ((buildMachineList h items).map Prod.fst).Nodup :=
  foldl_mapSet_keys_nodup h.getProviderIDForOnmetalMachine (fun mm => mm.Name) items []
    List.nodup_nil

theorem buildMachineList_length (h : Helpers) (items : List computev1alpha1.Machine) :
    (buildMachineList h items).length
      = ((items.map h.getProviderIDForOnmetalMachine).dedup).length := by
  rw [nodup_keys_length _ (buildMachineList_nodup h items), ← List.card_toFinset]
  congr 1
  ext k
  simp only [List.mem_toFinset]
  rw [buildMachineList_keys]
  simp [List.mem_map]

theorem buildMachineList_mem (h : Helpers) (items : List computev1alpha1.Machine)
    (k v : String) (hkv : (k, v) ∈ buildMachineList h items) :
    ∃ mm, mm ∈ items ∧ h.getProviderIDForOnmetalMachine mm = k ∧ mm.Name = v := by
  rcases foldl_mapSet_mem h.getProviderIDForOnmetalMachine (fun mm => mm.Name) items [] (k, v)
      hkv with hnil | hex
  · cases hnil
  · exact hex

theorem buildMachineList_get (h : Helpers) (items : List computev1alpha1.Machine)
    (hnd : (items.map h.getProviderIDForOnmetalMachine).Nodup)
    (mm : computev1alpha1.Machine) (hmm : mm ∈ items) :
    mapGet (buildMachineList h items) (h.getProviderIDForOnmetalMachine mm) = some mm.Name := by
  have hkey : h.getProviderIDForOnmetalMachine mm ∈ (buildMachineList h items).map Prod.fst :=
    (buildMachineList_keys h items _).2 ⟨mm, hmm, rfl⟩
  obtain ⟨p, hp, hpk⟩ := List.mem_map.1 hkey
  obtain ⟨k, v⟩ := p
  simp only at hpk
  subst hpk
  obtain ⟨m2, hm2, hid, hname⟩ := buildMachineList_mem h items _ v hp
  have heq : m2 = mm := List.inj_on_of_nodup_map hnd hm2 hmm hid
  subst heq
  rw [hname]
  exact mapGet_of_mem _ (buildMachineList_nodup h items) _ _ hp

theorem nodup_map_of_nodup_map {α β γ : Type} (f : α → β) (g : α → γ) (l : List α)
    (hfg : ∀ a, a ∈ l → ∀ b, b ∈ l → f a = f b → g a = g b)
    (hg : (l.map g).Nodup) : (l.map f).Nodup := by
  induction l with
  | nil => exact List.nodup_nil
  | cons x xs ih =>
    rw [List.map_cons, List.nodup_cons] at hg ⊢
    refine ⟨?_, ih (fun a ha b hb => hfg a (List.mem_cons_of_mem _ ha) b
      (List.mem_cons_of_mem _ hb)) hg.2⟩
    intro hmem
    obtain ⟨y, hy, hfy⟩ := List.mem_map.1 hmem
    apply hg.1
    rw [← hfg y (List.mem_cons_of_mem _ hy) x (List.mem_cons_self _ _) hfy]
    exact List.mem_map.2 ⟨y, hy, rfl⟩

theorem ListMachines_provider {σ : Type} (h : Helpers) (d : onmetalDriver σ)
    (mc : machinev1alpha1.MachineClass) (so : Option corev1.Secret) (w : World σ)
    (hp : mc.Provider ≠ h.ProviderName) :
    ListMachines h d (some ⟨some mc, so⟩) w
      = (.error (.status (status.Error .InvalidArgument
          ("requested provider '" ++ mc.Provider
            ++ "' is not suppored by the driver '" ++ h.ProviderName ++ "'"))), w) := by
  simp [ListMachines, hp]

theorem ListMachines_ok {σ : Type} (h : Helpers) (d : onmetalDriver σ)
    (req : Option driver.ListMachinesRequest) (w : World σ) (resp : driver.ListMachinesResponse)
    (hok : (ListMachines h d req w).1 = .ok resp) :
    ∃ labels items,
      (ListMachines h d req w).2.calls
        = w.calls ++ [Event.List d.OnmetalNamespace labels (.items items)] ∧
      resp.MachineList = buildMachineList h items := by
  cases req with
  | none => simp [ListMachines] at hok
  | some r =>
    obtain ⟨mco, so⟩ := r
    cases mco with
    | none => simp [ListMachines] at hok
    | some mc =>
      by_cases hp : mc.Provider = h.ProviderName
      · cases hv : h.validateProviderSpecAndSecret mc so with
        | error err => simp [ListMachines, hp, hv] at hok
        | ok providerSpec =>
          cases hl : (d.OnmetelClient.ListItems d.OnmetalNamespace
              (providerSpec.Labels.foldl (fun m kv => mapSet m kv.1 kv.2) []) w.backend).1 with
          | failed err =>
            simp [ListMachines, hp, hv, World.ListItems, hl] at hok
          | items ms =>
            simp only [ListMachines, hp, bne_self_eq_false, Bool.false_eq_true, if_false, hv,
              World.ListItems, hl] at hok ⊢
            refine ⟨_, ms, rfl, ?_⟩
            simp only [Except.ok.injEq] at hok
            rw [← hok]
            rfl
      · rw [ListMachines_provider h d mc so w hp] at hok
        cases hok

theorem validateDnsServers_mem (fldPath : Path) (servers : List Addr) (start i : Nat)
    (hi : servers[i]? = some Addr.zero) :
    field.Invalid (fldPath.Index (start + i)) (.addr .zero) "ip is invalid"
      ∈ validateDnsServers fldPath start servers := by
  induction servers generalizing start i with
  | nil => simp at hi
  | cons ip rest ih =>
    unfold validateDnsServers
    cases i with
    | zero =>
      simp only [List.getElem?_cons_zero, Option.some.injEq] at hi
      subst hi
      simp [Addr.IsValid]
    | succ i =>
      simp only [List.getElem?_cons_succ] at hi
      have := ih (start + 1) i hi
      rw [Nat.add_assoc, Nat.add_comm 1 i] at this
      exact List.mem_append_right _ this

/-! ## The claims -/

/-- C1: `DeleteMachine` returns success (the empty response, no error) if and only
if the request is well formed and names the driver's provider, the deletion of the
ignition secret succeeded or reported not-found, the deletion of the machine object
succeeded, and some fetch of the confirmation poll that falls before the end of the
context (deadline or cancellation) reported not-found with every earlier fetch
finding the object present; in every other execution it returns a classified error.
For machine "m1", when the first fetch after the deletion reports not-found, the
call succeeds after exactly one secret deletion, one machine deletion and one
fetch. -/
theorem C1_delete_success_iff_confirmed_absent :
    (∀ (σ : Type) (h : Helpers) (d : onmetalDriver σ) (ctx : Context)
        (req : Option driver.DeleteMachineRequest) (s : σ) (l : List Event),
      ((DeleteMachine h d ctx req ⟨s, l⟩).1 = .ok {} ↔
        ∃ m mc sec, req = some ⟨some m, some mc, some sec⟩ ∧ mc.Provider = h.ProviderName ∧
          client.IgnoreNotFound (secretDelete h d m s).1 = none ∧
          (machineDelete h d m s).1 = none ∧
          ∃ k e, fetchInTime (pollContext ctx) pollInterval k ∧
            fetchResult d.OnmetelClient (onmetalMachineKey d m) (machineDelete h d m s).2 k
              = some e ∧
            apierrors.IsNotFound e = true ∧
            ∀ j, j < k →
              fetchResult d.OnmetelClient (onmetalMachineKey d m) (machineDelete h d m s).2 j
                = none) ∧
      ((DeleteMachine h d ctx req ⟨s, l⟩).1 = .ok {} ∨
        ∃ st, (DeleteMachine h d ctx req ⟨s, l⟩).1 = .error (.status st) ∧
          (st.code = .InvalidArgument ∨ st.code = .NotFound ∨ st.code = .DeadlineExceeded
            ∨ st.code = .Unknown))) ∧
    (∀ (σ : Type) (h : Helpers) (d : onmetalDriver σ) (ctx : Context)
        (mc : machinev1alpha1.MachineClass) (sec : corev1.Secret) (s : σ) (l : List Event)
        (e : ApiError),
      mc.Provider = h.ProviderName →
      client.IgnoreNotFound (secretDelete h d ⟨"m1"⟩ s).1 = none →
      (machineDelete h d ⟨"m1"⟩ s).1 = none →
      (d.OnmetelClient.Get ⟨d.OnmetalNamespace, "m1"⟩ (machineDelete h d ⟨"m1"⟩ s).2).1 = some e →
      apierrors.IsNotFound e = true →
      DeleteMachine h d ctx (some ⟨some ⟨"m1"⟩, some mc, some sec⟩) ⟨s, l⟩
        = (.ok {},
            ⟨(d.OnmetelClient.Get ⟨d.OnmetalNamespace, "m1"⟩ (machineDelete h d ⟨"m1"⟩ s).2).2,
              l ++ [Event.Delete .Secret ⟨d.OnmetalNamespace, h.getIgnitionNameForMachine "m1"⟩
                      (secretDelete h d ⟨"m1"⟩ s).1,
                    Event.Delete .Machine ⟨d.OnmetalNamespace, "m1"⟩ none,
                    Event.Get ⟨d.OnmetalNamespace, "m1"⟩ (some e)]⟩)) := by
  refine ⟨fun σ h d ctx req s l => ⟨⟨?_, ?_⟩, ?_⟩, ?_⟩
  · -- success only after a confirmed absence
    intro hok
    cases hreq : isEmptyDeleteRequest req with
    | true =>
      rw [DeleteMachine_empty h d ctx req _ hreq] at hok
      cases hok
    | false =>
      obtain ⟨m, mc, sec, rfl⟩ := (isEmptyDeleteRequest_eq_false req).1 hreq
      by_cases hp : mc.Provider = h.ProviderName
      · cases hs : client.IgnoreNotFound (secretDelete h d m s).1 with
        | some e =>
          rw [DeleteMachine_secretFailed h d ctx m mc sec s l e hp hs] at hok
          cases hok
        | none =>
          cases hm : (machineDelete h d m s).1 with
          | some e =>
            rw [DeleteMachine_machineFailed h d ctx m mc sec s l e hp hs hm] at hok
            cases hok
          | none =>
            rw [DeleteMachine_polled h d ctx m mc sec s l hp hs hm] at hok
            obtain ⟨k, e, hfa, hnf⟩ :=
              (pollVerdict_eq_none _ _).1 ((afterPoll_eq_ok _).1 hok)
            obtain ⟨hk, hr, hall⟩ := (firstAnswer_eq_some _ _ _ _ _ _).1 hfa
            exact ⟨m, mc, sec, rfl, hp, hs, hm, k, e,
              (pollAttempts_lt_iff ctx k).1 hk, hr, hnf, hall⟩
      · rw [DeleteMachine_provider h d ctx m mc sec _ hp] at hok
        cases hok
  · -- a confirmed absence gives success
    rintro ⟨m, mc, sec, rfl, hp, hs, hm, k, e, hk, hr, hnf, hall⟩
    rw [DeleteMachine_polled h d ctx m mc sec s l hp hs hm]
    have hfa : pollAnswer h d ctx m s = some (k, e) :=
      (firstAnswer_eq_some _ _ _ _ _ _).2 ⟨(pollAttempts_lt_iff ctx k).2 hk, hr, hall⟩
    exact (afterPoll_eq_ok _).2 ((pollVerdict_eq_none _ _).2 ⟨k, e, hfa, hnf⟩)
  · -- every other execution ends in a classified error
    cases hreq : isEmptyDeleteRequest req with
    | true =>
      rw [DeleteMachine_empty h d ctx req _ hreq]
      exact Or.inr ⟨_, rfl, Or.inl rfl⟩
    | false =>
      obtain ⟨m, mc, sec, rfl⟩ := (isEmptyDeleteRequest_eq_false req).1 hreq
      by_cases hp : mc.Provider = h.ProviderName
      · cases hs : client.IgnoreNotFound (secretDelete h d m s).1 with
        | some e =>
          rw [DeleteMachine_secretFailed h d ctx m mc sec s l e hp hs]
          exact Or.inr ⟨_, rfl, Or.inr (Or.inr (Or.inr rfl))⟩
        | none =>
          cases hm : (machineDelete h d m s).1 with
          | some e =>
            rw [DeleteMachine_machineFailed h d ctx m mc sec s l e hp hs hm]
            refine Or.inr ⟨_, rfl, ?_⟩
            cases hnf : apierrors.IsNotFound e
            · exact Or.inr (Or.inr (Or.inr rfl))
            · exact Or.inr (Or.inl rfl)
          | none =>
            rw [DeleteMachine_polled h d ctx m mc sec s l hp hs hm]
            rcases afterPoll_classified
                (pollVerdict (pollContext ctx).cause (pollAnswer h d ctx m s)) with hok | ⟨st, hst, hc⟩
            · exact Or.inl hok
            · exact Or.inr ⟨st, hst, Or.inr (Or.inr (Or.inl hc))⟩
      · rw [DeleteMachine_provider h d ctx m mc sec _ hp]
        exact Or.inr ⟨_, rfl, Or.inl rfl⟩
  · -- machine "m1", absent at the first fetch
    intro σ h d ctx mc sec s l e hp hs hm hg hnf
    have h0 := fetchInTime_zero ctx
    rw [DeleteMachine_polled h d ctx ⟨"m1"⟩ mc sec s l hp hs hm]
    have hfa : pollAnswer h d ctx ⟨"m1"⟩ s = some (0, e) :=
      (firstAnswer_eq_some _ _ _ _ _ _).2
        ⟨(pollAttempts_lt_iff ctx 0).2 h0, hg, fun j hj => absurd hj (Nat.not_lt_zero j)⟩
    rw [hfa]
    simp [pollVerdict, hnf, afterPoll, pollFetches, fetchState, fetchLog, onmetalMachineKey,
      ignitionSecretKey, hg]

/-- Witness of C1: machine "m1" over a backend on which both deletions succeed and
the first fetch reports not-found. -/
theorem C1_witness :
    DeleteMachine exampleHelpers (fixedDriver none none (some notFoundError) (.items []))
        background m1Request ⟨0, []⟩
      = (.ok {},
          ⟨3, [Event.Delete .Secret ⟨"ns", "ignition-m1"⟩ none,
                Event.Delete .Machine ⟨"ns", "m1"⟩ none,
                Event.Get ⟨"ns", "m1"⟩ (some notFoundError)]⟩) :=
  C1_delete_success_iff_confirmed_absent.2 Nat exampleHelpers
    (fixedDriver none none (some notFoundError) (.items [])) background exampleClass ⟨[]⟩ 0 []
    notFoundError rfl rfl rfl rfl rfl

/-- C2, as the code has it: for a well-formed, provider-matching delete request for
which the backend reports both the ignition secret and the machine object as
not-found when their deletion is requested, `DeleteMachine` returns an error with
code NotFound carrying the backend's text, after the two deletions and without any
fetch. -/
theorem C2_both_absent_returns_NotFound {σ : Type} (h : Helpers) (d : onmetalDriver σ)
    (ctx : Context) (m : machinev1alpha1.Machine) (mc : machinev1alpha1.MachineClass)
    (sec : corev1.Secret) (s : σ) (l : List Event) (e1 e2 : ApiError)
    (hp : mc.Provider = h.ProviderName)
    (h1 : (secretDelete h d m s).1 = some e1) (hnf1 : apierrors.IsNotFound e1 = true)
    (h2 : (machineDelete h d m s).1 = some e2) (hnf2 : apierrors.IsNotFound e2 = true) :
    DeleteMachine h d ctx (some ⟨some m, some mc, some sec⟩) ⟨s, l⟩
      = (.error (.status (status.Error .NotFound e2.text)),
          ⟨(machineDelete h d m s).2,
            l ++ [Event.Delete .Secret (ignitionSecretKey h d m) (some e1),
                  Event.Delete .Machine (onmetalMachineKey d m) (some e2)]⟩) := by
  have hs : client.IgnoreNotFound (secretDelete h d m s).1 = none := by
    rw [h1]; simp [client.IgnoreNotFound, hnf1]
  rw [DeleteMachine_machineFailed h d ctx m mc sec s l e2 hp hs h2, h1]
  simp [hnf2]

/-- Witness of C2 as amended: both objects of "m1" are already gone. -/
theorem C2_witness :
    DeleteMachine exampleHelpers
        (fixedDriver (some notFoundError) (some notFoundError) none (.items []))
        background m1Request ⟨0, []⟩
      = (.error (.status (status.Error .NotFound "not found")),
          ⟨2, [Event.Delete .Secret ⟨"ns", "ignition-m1"⟩ (some notFoundError),
                Event.Delete .Machine ⟨"ns", "m1"⟩ (some notFoundError)]⟩) :=
  C2_both_absent_returns_NotFound exampleHelpers
    (fixedDriver (some notFoundError) (some notFoundError) none (.items [])) background
    ⟨"m1"⟩ exampleClass ⟨[]⟩ 0 [] notFoundError notFoundError rfl rfl rfl rfl rfl

/-- Counterexample to C2 as stated: the request for "m1" is well formed and names
the driver's provider, the backend reports both the ignition secret and the machine
object as not-found when their deletion is requested, and `DeleteMachine` returns
an error with code NotFound, not success. -/
theorem C2_counterexample :
    isEmptyDeleteRequest m1Request = false ∧
    exampleClass.Provider = exampleHelpers.ProviderName ∧
    (secretDelete exampleHelpers
        (fixedDriver (some notFoundError) (some notFoundError) none (.items [])) ⟨"m1"⟩ 0).1
      = some notFoundError ∧
    (machineDelete exampleHelpers
        (fixedDriver (some notFoundError) (some notFoundError) none (.items [])) ⟨"m1"⟩ 0).1
      = some notFoundError ∧
    apierrors.IsNotFound notFoundError = true ∧
    (DeleteMachine exampleHelpers
        (fixedDriver (some notFoundError) (some notFoundError) none (.items []))
        background m1Request ⟨0, []⟩).1
      = .error (.status ⟨.NotFound, "not found"⟩) ∧
    (DeleteMachine exampleHelpers
        (fixedDriver (some notFoundError) (some notFoundError) none (.items []))
        background m1Request ⟨0, []⟩).1
      ≠ .ok {} := by
  refine ⟨rfl, rfl, rfl, rfl, rfl, rfl, ?_⟩
  intro hc
  have hne : (Except.error (.status ⟨.NotFound, "not found"⟩) :
      Except Failure driver.DeleteMachineResponse) = .ok {} := hc
  cases hne

/-- C3, as the code behaves: when both deletions succeed and a fetch of the
confirmation poll that falls before the end of the context fails with an error
other than not-found, every earlier fetch having found the machine object present,
polling stops at that fetch (it is the last backend call), and the error
`DeleteMachine` returns has code DeadlineExceeded, not Unknown: the Unknown error
built by the poll condition survives only as the text of the message. -/
theorem C3_fetch_failure_returns_DeadlineExceeded {σ : Type} (h : Helpers)
    (d : onmetalDriver σ) (ctx : Context) (m : machinev1alpha1.Machine)
    (mc : machinev1alpha1.MachineClass) (sec : corev1.Secret) (s : σ) (l : List Event)
    (k : Nat) (e : ApiError)
    (hp : mc.Provider = h.ProviderName)
    (hs : (secretDelete h d m s).1 = none)
    (hm : (machineDelete h d m s).1 = none)
    (hk : fetchInTime (pollContext ctx) pollInterval k)
    (hr : fetchResult d.OnmetelClient ⟨d.OnmetalNamespace, m.Name⟩ (machineDelete h d m s).2 k
            = some e)
    (hnf : apierrors.IsNotFound e = false)
    (hall : ∀ j, j < k →
      fetchResult d.OnmetelClient ⟨d.OnmetalNamespace, m.Name⟩ (machineDelete h d m s).2 j
        = none) :
    DeleteMachine h d ctx (some ⟨some m, some mc, some sec⟩) ⟨s, l⟩
      = (.error (.status ⟨.DeadlineExceeded, (status.Error .Unknown e.text).Error⟩),
          ⟨fetchState d.OnmetelClient ⟨d.OnmetalNamespace, m.Name⟩ (machineDelete h d m s).2
              (k + 1),
            l ++ [Event.Delete .Secret
                    ⟨d.OnmetalNamespace, h.getIgnitionNameForMachine m.Name⟩ none,
                  Event.Delete .Machine ⟨d.OnmetalNamespace, m.Name⟩ none]
              ++ (List.replicate k (Event.Get ⟨d.OnmetalNamespace, m.Name⟩ none)
                ++ [Event.Get ⟨d.OnmetalNamespace, m.Name⟩ (some e)])⟩) ∧
    Code.DeadlineExceeded ≠ Code.Unknown := by
  have hs0 : client.IgnoreNotFound (secretDelete h d m s).1 = none := by rw [hs]; rfl
  have hfa : pollAnswer h d ctx m s = some (k, e) :=
    (firstAnswer_eq_some _ _ _ _ _ _).2 ⟨(pollAttempts_lt_iff ctx k).2 hk, hr, hall⟩
  refine ⟨?_, by decide⟩
  rw [DeleteMachine_polled h d ctx m mc sec s l hp hs0 hm, hfa, hs]
  simp only [pollVerdict, hnf, afterPoll, pollFetches, PollError.Error, Bool.false_eq_true,
    if_false]
  have hall2 : ∀ j, j < k →
      fetchResult d.OnmetelClient (onmetalMachineKey d m) (machineDelete h d m s).2 j
        = none := hall
  have hr2 : fetchResult d.OnmetelClient (onmetalMachineKey d m) (machineDelete h d m s).2 k
      = some e := hr
  rw [fetchLog_succ_last, fetchLog_present _ _ _ _ hall2, hr2]
  rfl

/-- Witness of C3 as the code behaves: for machine "m1" both deletions succeed and the
first fetch fails with the error "boom"; the call makes three backend calls and
returns DeadlineExceeded. -/
theorem C3_witness :
    DeleteMachine exampleHelpers (fixedDriver none none (some otherError) (.items []))
        background m1Request ⟨0, []⟩
      = (.error (.status
            ⟨.DeadlineExceeded, "machine codes error: code = [Unknown] message = [boom]"⟩),
          ⟨3, [Event.Delete .Secret ⟨"ns", "ignition-m1"⟩ none,
                Event.Delete .Machine ⟨"ns", "m1"⟩ none,
                Event.Get ⟨"ns", "m1"⟩ (some otherError)]⟩) ∧
    Code.DeadlineExceeded ≠ Code.Unknown :=
  C3_fetch_failure_returns_DeadlineExceeded exampleHelpers
    (fixedDriver none none (some otherError) (.items [])) background ⟨"m1"⟩ exampleClass ⟨[]⟩
    0 [] 0 otherError rfl rfl rfl (Or.inl (by decide)) rfl rfl
    (fun j hj => absurd hj (Nat.not_lt_zero j))

/-- C4: when both deletions succeed, the caller's context is never cancelled and
every fetch of the confirmation poll finds the machine object still present (fetches
take no time), the poll ends and `DeleteMachine` returns an error with code
DeadlineExceeded after `n` fetches, where `n` is at least floor(timeout/interval)
and at most ceil(timeout/interval) + 1, that is 120 ≤ n ≤ 121 for the interval of 5
seconds and the timeout of 10 minutes. -/
theorem C4_never_absent_deadline_exceeded {σ : Type} (h : Helpers) (d : onmetalDriver σ)
    (ctx : Context) (m : machinev1alpha1.Machine) (mc : machinev1alpha1.MachineClass)
    (sec : corev1.Secret) (s : σ) (l : List Event)
    (hp : mc.Provider = h.ProviderName)
    (hc : ctx.doneAt = none)
    (hs : (secretDelete h d m s).1 = none)
    (hm : (machineDelete h d m s).1 = none)
    (hpresent : ∀ j, j * pollInterval ≤ pollTimeout →
      fetchResult d.OnmetelClient ⟨d.OnmetalNamespace, m.Name⟩ (machineDelete h d m s).2 j
        = none) :
    ∃ n,
      DeleteMachine h d ctx (some ⟨some m, some mc, some sec⟩) ⟨s, l⟩
        = (.error (.status (status.Error .DeadlineExceeded "context deadline exceeded")),
            ⟨fetchState d.OnmetelClient ⟨d.OnmetalNamespace, m.Name⟩ (machineDelete h d m s).2 n,
              l ++ [Event.Delete .Secret
                      ⟨d.OnmetalNamespace, h.getIgnitionNameForMachine m.Name⟩ none,
                    Event.Delete .Machine ⟨d.OnmetalNamespace, m.Name⟩ none]
                ++ List.replicate n (Event.Get ⟨d.OnmetalNamespace, m.Name⟩ none)⟩) ∧
      pollTimeout / pollInterval ≤ n ∧
      n ≤ (pollTimeout + pollInterval - 1) / pollInterval + 1 ∧
      120 ≤ n ∧ n ≤ 121 := by
  have hs0 : client.IgnoreNotFound (secretDelete h d m s).1 = none := by rw [hs]; rfl
  have hbounds := pollAttempts_background ctx hc
  have hall : ∀ j, j < pollAttempts ctx →
      fetchResult d.OnmetelClient (onmetalMachineKey d m) (machineDelete h d m s).2 j = none := by
    intro j hj
    apply hpresent
    have hin := (pollAttempts_lt_iff ctx j).1 hj
    rw [pollContext_background ctx hc] at hin
    rcases hin with hlt | ⟨heq, _⟩
    · exact Nat.le_of_lt hlt
    · exact Nat.le_of_eq heq
  have hfa : pollAnswer h d ctx m s = none := (firstAnswer_eq_none _ _ _ _).2 hall
  refine ⟨pollAttempts ctx, ?_, ?_, ?_, hbounds.1, hbounds.2⟩
  · rw [DeleteMachine_polled h d ctx m mc sec s l hp hs0 hm, hfa, hs,
      pollContext_background ctx hc]
    simp only [pollVerdict, afterPoll, pollFetches, PollError.Error, CtxError.Error]
    rw [fetchLog_present _ _ _ _ hall]
    rfl
  · have h120 : pollTimeout / pollInterval = 120 := by decide
    rw [h120]; exact hbounds.1
  · have h121 : (pollTimeout + pollInterval - 1) / pollInterval + 1 = 121 := by decide
    rw [h121]; exact hbounds.2

/-- Witness of C4: machine "m1" over a backend that deletes at once but keeps
reporting the machine object present. -/
theorem C4_witness :
    ∃ n,
      DeleteMachine exampleHelpers (fixedDriver none none none (.items [])) background
          m1Request ⟨0, []⟩
        = (.error (.status (status.Error .DeadlineExceeded "context deadline exceeded")),
            ⟨fetchState (fixedClient none none none (.items [])) ⟨"ns", "m1"⟩ 2 n,
              [Event.Delete .Secret ⟨"ns", "ignition-m1"⟩ none,
                Event.Delete .Machine ⟨"ns", "m1"⟩ none]
                ++ List.replicate n (Event.Get ⟨"ns", "m1"⟩ none)⟩) ∧
      pollTimeout / pollInterval ≤ n ∧
      n ≤ (pollTimeout + pollInterval - 1) / pollInterval + 1 ∧
      120 ≤ n ∧ n ≤ 121 :=
  C4_never_absent_deadline_exceeded exampleHelpers (fixedDriver none none none (.items []))
    background ⟨"m1"⟩ exampleClass ⟨[]⟩ 0 [] rfl rfl rfl rfl (fun _ _ => rfl)

/-- C5: for a request whose machine class names a provider other than the driver's,
`DeleteMachine` and `ListMachines` both return an error with code InvalidArgument
and make no backend call: backend state and call log are left as they were. -/
theorem C5_provider_mismatch_rejected {σ : Type} (h : Helpers) (d : onmetalDriver σ)
    (ctx : Context) (mc : machinev1alpha1.MachineClass)
    (hp : mc.Provider ≠ h.ProviderName) :
    (∀ (mo : Option machinev1alpha1.Machine) (so : Option corev1.Secret) (w : World σ),
      ∃ st, DeleteMachine h d ctx (some ⟨mo, some mc, so⟩) w = (.error (.status st), w) ∧
        st.code = .InvalidArgument) ∧
    (∀ (so : Option corev1.Secret) (w : World σ),
      ∃ st, ListMachines h d (some ⟨some mc, so⟩) w = (.error (.status st), w) ∧
        st.code = .InvalidArgument) := by
  constructor
  · intro mo so w
    cases mo with
    | none => exact ⟨_, DeleteMachine_empty h d ctx _ w (by simp [isEmptyDeleteRequest]), rfl⟩
    | some m =>
      cases so with
      | none => exact ⟨_, DeleteMachine_empty h d ctx _ w (by simp [isEmptyDeleteRequest]), rfl⟩
      | some sec => exact ⟨_, DeleteMachine_provider h d ctx m mc sec w hp, rfl⟩
  · intro so w
    exact ⟨_, ListMachines_provider h d mc so w hp, rfl⟩

/-- Witness of C5: a machine class of provider "aws" sent to the "onmetal" driver. -/
theorem C5_witness :
    (∀ (mo : Option machinev1alpha1.Machine) (so : Option corev1.Secret) (w : World Nat),
      ∃ st, DeleteMachine exampleHelpers (fixedDriver none none none (.items [])) background
          (some ⟨mo, some foreignClass, so⟩) w = (.error (.status st), w) ∧
        st.code = .InvalidArgument) ∧
    (∀ (so : Option corev1.Secret) (w : World Nat),
      ∃ st, ListMachines exampleHelpers (fixedDriver none none none (.items []))
          (some ⟨some foreignClass, so⟩) w = (.error (.status st), w) ∧
        st.code = .InvalidArgument) :=
  C5_provider_mismatch_rejected exampleHelpers (fixedDriver none none none (.items []))
    background foreignClass (by decide)

/-- C6: `isEmptyDeleteRequest` is false exactly when the request and its machine
class, machine and secret are all non-nil; and for every delete request that is nil
or has a nil machine class, machine or secret, `DeleteMachine` returns an
InvalidArgument error and makes no backend call (backend state and call log are
left as they were). -/
theorem C6_empty_delete_request_rejected :
    ∀ (σ : Type) (h : Helpers) (d : onmetalDriver σ) (ctx : Context)
      (req : Option driver.DeleteMachineRequest) (w : World σ),
      (isEmptyDeleteRequest req = false ↔
        ∃ r, req = some r ∧ r.MachineClass ≠ none ∧ r.Machine ≠ none ∧ r.Secret ≠ none) ∧
      ((req = none ∨
          ∃ r, req = some r ∧ (r.MachineClass = none ∨ r.Machine = none ∨ r.Secret = none)) →
        ∃ st, DeleteMachine h d ctx req w = (.error (.status st), w) ∧
          st.code = .InvalidArgument) := by
  intro σ h d ctx req w
  constructor
  · cases req with
    | none => simp [isEmptyDeleteRequest]
    | some r =>
      obtain ⟨m, mc, sec⟩ := r
      cases m <;> cases mc <;> cases sec <;> simp [isEmptyDeleteRequest]
  · intro hnil
    have he : isEmptyDeleteRequest req = true := by
      rcases hnil with rfl | ⟨r, rfl, hr⟩
      · rfl
      · rcases hr with hr | hr | hr <;> simp [isEmptyDeleteRequest, hr]
    exact ⟨_, DeleteMachine_empty h d ctx req w he, rfl⟩

/-- C7: for every provider spec with a root disk, every secret (possibly nil) and
every field path, the errors returned by `ValidateProviderSpecAndSecret` contain the
error of each violated rule: Required at `spec.secretRef` when the secret is nil;
Required at `userData` when the secret has no `userData` entry or a nil one;
Required at `spec.image`, `spec.rootDisk.volumeClassName`, `spec.networkName` and
`spec.prefixName` when the field is empty; and Invalid at `spec.dnsServers[i]`, with
message "ip is invalid", for every index `i` that holds the zero-value address. -/
theorem C7_validation_collects_field_errors (spec : ProviderSpec) (rootDisk : RootDisk)
    (secret : Option corev1.Secret) (fldPath : Path)
    (hrd : spec.RootDisk = some rootDisk) :
    (secret = none →
      field.Required ((fldPath.Child "spec").Child "secretRef") "secretRef is required"
        ∈ ValidateProviderSpecAndSecret spec secret fldPath) ∧
    (∀ s, secret = some s →
      (List.lookup "userData" s.Data = none ∨ List.lookup "userData" s.Data = some none) →
      field.Required (fldPath.Child "userData") "userData is required"
        ∈ ValidateProviderSpecAndSecret spec secret fldPath) ∧
    (spec.Image = "" →
      field.Required ((fldPath.Child "spec").Child "image") "image is required"
        ∈ ValidateProviderSpecAndSecret spec secret fldPath) ∧
    (rootDisk.VolumeClassName = "" →
      field.Required (((fldPath.Child "spec").Child "rootDisk").Child "volumeClassName")
          "volumeClassName is required"
        ∈ ValidateProviderSpecAndSecret spec secret fldPath) ∧
    (spec.NetworkName = "" →
      field.Required ((fldPath.Child "spec").Child "networkName") "networkName is required"
        ∈ ValidateProviderSpecAndSecret spec secret fldPath) ∧
    (spec.PrefixName = "" →
      field.Required ((fldPath.Child "spec").Child "prefixName") "prefixName is required"
        ∈ ValidateProviderSpecAndSecret spec secret fldPath) ∧
    (∀ i, spec.DnsServers[i]? = some Addr.zero →
      field.Invalid (((fldPath.Child "spec").Child "dnsServers").Index i) (.addr .zero)
          "ip is invalid"
        ∈ ValidateProviderSpecAndSecret spec secret fldPath) := by
  refine ⟨?_, ?_, ?_, ?_, ?_, ?_, ?_⟩
  · intro hs
    simp [ValidateProviderSpecAndSecret, validateSecret, hs]
  · intro s hs hud
    rcases hud with hud | hud <;>
      simp [ValidateProviderSpecAndSecret, validateSecret, hs, hud]
  · intro hi
    simp [ValidateProviderSpecAndSecret, validateProviderSpec, hi]
  · intro hv
    simp [ValidateProviderSpecAndSecret, validateProviderSpec, hrd, hv]
  · intro hn
    simp [ValidateProviderSpecAndSecret, validateProviderSpec, hn]
  · intro hpn
    simp [ValidateProviderSpecAndSecret, validateProviderSpec, hpn]
  · intro i hi
    have := validateDnsServers_mem ((fldPath.Child "spec").Child "dnsServers")
      spec.DnsServers 0 i hi
    rw [Nat.zero_add] at this
    unfold ValidateProviderSpecAndSecret validateProviderSpec
    exact List.mem_append_right _ (List.mem_append_right _ this)

/-- Witness of C7: the entries of the validation test, with the nil field path. -/
theorem C7_witness :
    (⟨.Required, "spec.secretRef", .text "", "secretRef is required"⟩ : FieldError)
      ∈ ValidateProviderSpecAndSecret emptySpec none [] ∧
    (⟨.Required, "userData", .text "", "userData is required"⟩ : FieldError)
      ∈ ValidateProviderSpecAndSecret emptySpec (some ⟨[("userData", none)]⟩) [] ∧
    (⟨.Required, "spec.image", .text "", "image is required"⟩ : FieldError)
      ∈ ValidateProviderSpecAndSecret emptySpec (some ⟨[]⟩) [] ∧
    (⟨.Required, "spec.rootDisk.volumeClassName", .text "", "volumeClassName is required"⟩ :
        FieldError)
      ∈ ValidateProviderSpecAndSecret emptySpec (some ⟨[]⟩) [] ∧
    (⟨.Required, "spec.networkName", .text "", "networkName is required"⟩ : FieldError)
      ∈ ValidateProviderSpecAndSecret emptySpec (some ⟨[]⟩) [] ∧
    (⟨.Required, "spec.prefixName", .text "", "prefixName is required"⟩ : FieldError)
      ∈ ValidateProviderSpecAndSecret emptySpec (some ⟨[]⟩) [] ∧
    (⟨.Invalid, "spec.dnsServers[0]", .addr .zero, "ip is invalid"⟩ : FieldError)
      ∈ ValidateProviderSpecAndSecret emptySpec (some ⟨[]⟩) [] :=
  ⟨(C7_validation_collects_field_errors emptySpec ⟨"", 0⟩ none [] rfl).1 rfl,
    (C7_validation_collects_field_errors emptySpec ⟨"", 0⟩ (some ⟨[("userData", none)]⟩) []
      rfl).2.1 _ rfl (Or.inr rfl),
    (C7_validation_collects_field_errors emptySpec ⟨"", 0⟩ (some ⟨[]⟩) [] rfl).2.2.1 rfl,
    (C7_validation_collects_field_errors emptySpec ⟨"", 0⟩ (some ⟨[]⟩) [] rfl).2.2.2.1 rfl,
    (C7_validation_collects_field_errors emptySpec ⟨"", 0⟩ (some ⟨[]⟩) [] rfl).2.2.2.2.1 rfl,
    (C7_validation_collects_field_errors emptySpec ⟨"", 0⟩ (some ⟨[]⟩) [] rfl).2.2.2.2.2.1 rfl,
    (C7_validation_collects_field_errors emptySpec ⟨"", 0⟩ (some ⟨[]⟩) [] rfl).2.2.2.2.2.2 0 rfl⟩

/-- C8: for every successful `ListMachines` call, with `items` the objects its one
backend call listed: when the backend keeps its objects by namespace and name (no two
listed objects have the same namespace and name) and external IDs are unique per
object (listed objects with the same external ID have the same namespace and name),
the returned mapping has exactly one entry per listed object: its size is the number
of listed objects, its key set is the set of their external IDs, no two listed
objects share a key, no key occurs twice, and the external ID of each listed object
maps to the name of that object. -/
theorem C8_machine_list_one_entry_per_object {σ : Type} (h : Helpers) (d : onmetalDriver σ)
    (req : Option driver.ListMachinesRequest) (w : World σ) (resp : driver.ListMachinesResponse)
    (ns : String) (labels : List (String × String)) (items : List computev1alpha1.Machine)
    (hok : (ListMachines h d req w).1 = .ok resp)
    (hcall : (ListMachines h d req w).2.calls
      = w.calls ++ [Event.List ns labels (.items items)])
    (hkeys : (items.map (fun mm => (mm.Namespace, mm.Name))).Nodup)
    (hid : ∀ a, a ∈ items → ∀ b, b ∈ items →
      h.getProviderIDForOnmetalMachine a = h.getProviderIDForOnmetalMachine b →
      a.Namespace = b.Namespace ∧ a.Name = b.Name) :
    ns = d.OnmetalNamespace ∧
    resp.MachineList.length = items.length ∧
    (∀ k, k ∈ resp.MachineList.map Prod.fst
      ↔ ∃ mm, mm ∈ items ∧ h.getProviderIDForOnmetalMachine mm = k) ∧
    (items.map h.getProviderIDForOnmetalMachine).Nodup ∧
    (resp.MachineList.map Prod.fst).Nodup ∧
    (∀ mm, mm ∈ items →
      mapGet resp.MachineList (h.getProviderIDForOnmetalMachine mm) = some mm.Name) ∧
    (∀ k v, (k, v) ∈ resp.MachineList →
      ∃ mm, mm ∈ items ∧ h.getProviderIDForOnmetalMachine mm = k ∧ mm.Name = v) := by
  obtain ⟨labels0, items0, hcalls, hlist⟩ := ListMachines_ok h d req w resp hok
  rw [hcalls] at hcall
  have hev := List.append_cancel_left hcall
  simp only [List.cons.injEq, Event.List.injEq, ListResult.items.injEq, and_true] at hev
  obtain ⟨hns, _, hitems⟩ := hev
  subst hitems
  have hnd : (items0.map h.getProviderIDForOnmetalMachine).Nodup :=
    nodup_map_of_nodup_map h.getProviderIDForOnmetalMachine
      (fun mm => (mm.Namespace, mm.Name)) items0
      (fun a ha b hb hab => by
        obtain ⟨h1, h2⟩ := hid a ha b hb hab
        simp [h1, h2])
      hkeys
  refine ⟨hns.symm, ?_, ?_, hnd, ?_, ?_, ?_⟩
  · rw [hlist, buildMachineList_length, hnd.dedup, List.length_map]
  · intro k; rw [hlist]; exact buildMachineList_keys h items0 k
  · rw [hlist]; exact buildMachineList_nodup h items0
  · intro mm hmm; rw [hlist]; exact buildMachineList_get h items0 hnd mm hmm
  · intro k v hkv; rw [hlist] at hkv; exact buildMachineList_mem h items0 k v hkv

/-- Witness of C8: the backend lists the machines "m1" and "m2" of namespace "ns";
the mapping has the two entries `onmetal://ns/m1 ↦ m1` and `onmetal://ns/m2 ↦ m2`. -/
theorem C8_witness :
    "ns" = (fixedDriver none none none (.items twoMachines)).OnmetalNamespace ∧
    [("onmetal://ns/m2", "m2"), ("onmetal://ns/m1", "m1")].length = twoMachines.length ∧
    (∀ k, k ∈ [("onmetal://ns/m2", "m2"), ("onmetal://ns/m1", "m1")].map Prod.fst
      ↔ ∃ mm, mm ∈ twoMachines ∧ exampleHelpers.getProviderIDForOnmetalMachine mm = k) ∧
    (twoMachines.map exampleHelpers.getProviderIDForOnmetalMachine).Nodup ∧
    ([("onmetal://ns/m2", "m2"), ("onmetal://ns/m1", "m1")].map Prod.fst).Nodup ∧
    (∀ mm, mm ∈ twoMachines →
      mapGet [("onmetal://ns/m2", "m2"), ("onmetal://ns/m1", "m1")]
        (exampleHelpers.getProviderIDForOnmetalMachine mm) = some mm.Name) ∧
    (∀ k v, (k, v) ∈ [("onmetal://ns/m2", "m2"), ("onmetal://ns/m1", "m1")] →
      ∃ mm, mm ∈ twoMachines ∧ exampleHelpers.getProviderIDForOnmetalMachine mm = k ∧
        mm.Name = v) :=
  C8_machine_list_one_entry_per_object exampleHelpers
    (fixedDriver none none none (.items twoMachines)) listRequest ⟨0, []⟩
    ⟨[("onmetal://ns/m2", "m2"), ("onmetal://ns/m1", "m1")]⟩ "ns" [] twoMachines rfl rfl
    (by decide) (by decide)

/-- C9: for a well-formed, provider-matching delete request whose ignition-secret
deletion (secret named by `getIgnitionNameForMachine` of the machine name, in the
driver's namespace) fails with error `e`: if `e` is not-found, `DeleteMachine` goes
on to request the deletion of the machine object and ends with the same result,
the same backend state and the same further calls as over the backend on which the
secret deletion succeeds; if `e` is any other error, it returns an error with code
Unknown and the secret deletion is its only backend call. -/
theorem C9_secret_delete_outcomes {σ : Type} (h : Helpers) (d : onmetalDriver σ)
    (ctx : Context) (m : machinev1alpha1.Machine) (mc : machinev1alpha1.MachineClass)
    (sec : corev1.Secret) (s : σ) (l : List Event) (e : ApiError)
    (hp : mc.Provider = h.ProviderName)
    (he : (d.OnmetelClient.Delete .Secret
            ⟨d.OnmetalNamespace, h.getIgnitionNameForMachine m.Name⟩ s).1 = some e) :
    (apierrors.IsNotFound e = true →
      ∃ rest,
        DeleteMachine h d ctx (some ⟨some m, some mc, some sec⟩) ⟨s, l⟩
          = ((DeleteMachine h (secretDeleteSucceeds d) ctx
                (some ⟨some m, some mc, some sec⟩) ⟨s, l⟩).1,
              ⟨(DeleteMachine h (secretDeleteSucceeds d) ctx
                  (some ⟨some m, some mc, some sec⟩) ⟨s, l⟩).2.backend,
                l ++ Event.Delete .Secret
                      ⟨d.OnmetalNamespace, h.getIgnitionNameForMachine m.Name⟩ (some e)
                  :: Event.Delete .Machine ⟨d.OnmetalNamespace, m.Name⟩
                      (machineDelete h d m s).1
                  :: rest⟩) ∧
        (DeleteMachine h (secretDeleteSucceeds d) ctx
            (some ⟨some m, some mc, some sec⟩) ⟨s, l⟩).2.calls
          = l ++ Event.Delete .Secret
                  ⟨d.OnmetalNamespace, h.getIgnitionNameForMachine m.Name⟩ none
              :: Event.Delete .Machine ⟨d.OnmetalNamespace, m.Name⟩ (machineDelete h d m s).1
              :: rest) ∧
    (apierrors.IsNotFound e = false →
      DeleteMachine h d ctx (some ⟨some m, some mc, some sec⟩) ⟨s, l⟩
        = (.error (.status (status.Error .Unknown ("error deleting ignition secret: " ++ e.text))),
            ⟨(secretDelete h d m s).2,
              l ++ [Event.Delete .Secret
                ⟨d.OnmetalNamespace, h.getIgnitionNameForMachine m.Name⟩ (some e)]⟩)) := by
  have he1 : (secretDelete h d m s).1 = some e := he
  constructor
  · intro hnf
    have hs : client.IgnoreNotFound (secretDelete h d m s).1 = none := by
      rw [he1]; simp [client.IgnoreNotFound, hnf]
    have hs2 : client.IgnoreNotFound (secretDelete h (secretDeleteSucceeds d) m s).1 = none := rfl
    have hmd : machineDelete h (secretDeleteSucceeds d) m s = machineDelete h d m s := rfl
    have hg : (secretDeleteSucceeds d).OnmetelClient.Get = d.OnmetelClient.Get := rfl
    cases hm : (machineDelete h d m s).1 with
    | some e2 =>
      have hm2 : (machineDelete h (secretDeleteSucceeds d) m s).1 = some e2 := by rw [hmd, hm]
      rw [DeleteMachine_machineFailed h d ctx m mc sec s l e2 hp hs hm,
        DeleteMachine_machineFailed h (secretDeleteSucceeds d) ctx m mc sec s l e2 hp hs2 hm2]
      refine ⟨[], ?_, ?_⟩
      · simp [he1, hmd, ignitionSecretKey, onmetalMachineKey]
      · simp [ignitionSecretKey, onmetalMachineKey, secretDelete, secretDeleteSucceeds]
    | none =>
      have hm2 : (machineDelete h (secretDeleteSucceeds d) m s).1 = none := by rw [hmd, hm]
      have hpa : pollAnswer h (secretDeleteSucceeds d) ctx m s = pollAnswer h d ctx m s := by
        unfold pollAnswer
        rw [hmd]
        exact firstAnswer_congr _ _ hg _ _ _
      rw [DeleteMachine_polled h d ctx m mc sec s l hp hs hm,
        DeleteMachine_polled h (secretDeleteSucceeds d) ctx m mc sec s l hp hs2 hm2]
      refine ⟨fetchLog d.OnmetelClient (onmetalMachineKey d m) (machineDelete h d m s).2
          (pollFetches (pollAttempts ctx) (pollAnswer h d ctx m s)), ?_, ?_⟩
      · rw [hpa, hmd, he1]
        have hk : onmetalMachineKey (secretDeleteSucceeds d) m = onmetalMachineKey d m := rfl
        rw [hk, fetchState_congr _ _ hg]
        simp [ignitionSecretKey, onmetalMachineKey]
      · rw [hpa, hmd]
        have hk : onmetalMachineKey (secretDeleteSucceeds d) m = onmetalMachineKey d m := rfl
        rw [hk, fetchLog_congr _ _ hg]
        simp [ignitionSecretKey, onmetalMachineKey, secretDelete, secretDeleteSucceeds]
  · intro hnf
    have hs : client.IgnoreNotFound (secretDelete h d m s).1 = some e := by
      rw [he1]; simp [client.IgnoreNotFound, hnf]
    rw [DeleteMachine_secretFailed h d ctx m mc sec s l e hp hs, he1]
    rfl

/-- Witness of C9: for machine "m1", a secret deletion that fails with another
error ends the call with Unknown after that one backend call; a secret deletion
that reports not-found is followed by the machine deletion and the poll, as over the
backend on which the secret deletion succeeds. -/
theorem C9_witness :
    DeleteMachine exampleHelpers (fixedDriver (some otherError) none none (.items []))
        background m1Request ⟨0, []⟩
      = (.error (.status ⟨.Unknown, "error deleting ignition secret: boom"⟩),
          ⟨1, [Event.Delete .Secret ⟨"ns", "ignition-m1"⟩ (some otherError)]⟩) ∧
    ∃ rest,
      DeleteMachine exampleHelpers
          (fixedDriver (some notFoundError) none (some notFoundError) (.items []))
          background m1Request ⟨0, []⟩
        = ((DeleteMachine exampleHelpers
              (secretDeleteSucceeds
                (fixedDriver (some notFoundError) none (some notFoundError) (.items [])))
              background m1Request ⟨0, []⟩).1,
            ⟨(DeleteMachine exampleHelpers
                (secretDeleteSucceeds
                  (fixedDriver (some notFoundError) none (some notFoundError) (.items [])))
                background m1Request ⟨0, []⟩).2.backend,
              Event.Delete .Secret ⟨"ns", "ignition-m1"⟩ (some notFoundError)
                :: Event.Delete .Machine ⟨"ns", "m1"⟩ none :: rest⟩) ∧
      (DeleteMachine exampleHelpers
          (secretDeleteSucceeds
            (fixedDriver (some notFoundError) none (some notFoundError) (.items [])))
          background m1Request ⟨0, []⟩).2.calls
        = Event.Delete .Secret ⟨"ns", "ignition-m1"⟩ none
            :: Event.Delete .Machine ⟨"ns", "m1"⟩ none :: rest :=
  ⟨(C9_secret_delete_outcomes exampleHelpers (fixedDriver (some otherError) none none (.items []))
      background ⟨"m1"⟩ exampleClass ⟨[]⟩ 0 [] otherError rfl rfl).2 rfl,
    (C9_secret_delete_outcomes exampleHelpers
      (fixedDriver (some notFoundError) none (some notFoundError) (.items []))
      background ⟨"m1"⟩ exampleClass ⟨[]⟩ 0 [] notFoundError rfl rfl).1 rfl⟩

/-- C10: for a well-formed, provider-matching delete request whose secret step did
not abort, a failing deletion of the machine object (name = machine name,
namespace = driver namespace) makes `DeleteMachine` return NotFound when the
failure is not-found and Unknown otherwise; in both cases the call ends there: the
log holds the two deletions and no fetch. -/
theorem C10_machine_delete_failure_classified {σ : Type} (h : Helpers) (d : onmetalDriver σ)
    (ctx : Context) (m : machinev1alpha1.Machine) (mc : machinev1alpha1.MachineClass)
    (sec : corev1.Secret) (s : σ) (l : List Event) (e : ApiError)
    (hp : mc.Provider = h.ProviderName)
    (hs : client.IgnoreNotFound (secretDelete h d m s).1 = none)
    (hm : (d.OnmetelClient.Delete .Machine ⟨d.OnmetalNamespace, m.Name⟩
            (secretDelete h d m s).2).1 = some e) :
    (∃ st, (DeleteMachine h d ctx (some ⟨some m, some mc, some sec⟩) ⟨s, l⟩).1
        = .error (.status st) ∧
      (apierrors.IsNotFound e = true → st.code = .NotFound) ∧
      (apierrors.IsNotFound e = false → st.code = .Unknown)) ∧
    (DeleteMachine h d ctx (some ⟨some m, some mc, some sec⟩) ⟨s, l⟩).2.calls
      = l ++ [Event.Delete .Secret ⟨d.OnmetalNamespace, h.getIgnitionNameForMachine m.Name⟩
                (secretDelete h d m s).1,
              Event.Delete .Machine ⟨d.OnmetalNamespace, m.Name⟩ (some e)] ∧
    ((DeleteMachine h d ctx (some ⟨some m, some mc, some sec⟩) ⟨s, l⟩).2.calls.filter
        Event.isGet).length = (l.filter Event.isGet).length := by
  rw [DeleteMachine_machineFailed h d ctx m mc sec s l e hp hs hm]
  refine ⟨⟨_, rfl, ?_, ?_⟩, rfl, ?_⟩
  · intro hnf; simp [hnf, status.Error]
  · intro hnf; simp [hnf, status.Error]
  · simp [List.filter_append, Event.isGet]

/-- Witness of C10: the machine object of "m1" is already gone when its deletion
is requested. -/
theorem C10_witness :
    (∃ st, (DeleteMachine exampleHelpers (fixedDriver none (some notFoundError) none (.items []))
          background m1Request ⟨0, []⟩).1 = .error (.status st) ∧
      (apierrors.IsNotFound notFoundError = true → st.code = .NotFound) ∧
      (apierrors.IsNotFound notFoundError = false → st.code = .Unknown)) ∧
    (DeleteMachine exampleHelpers (fixedDriver none (some notFoundError) none (.items []))
        background m1Request ⟨0, []⟩).2.calls
      = [Event.Delete .Secret ⟨"ns", "ignition-m1"⟩ none,
          Event.Delete .Machine ⟨"ns", "m1"⟩ (some notFoundError)] ∧
    ((DeleteMachine exampleHelpers (fixedDriver none (some notFoundError) none (.items []))
        background m1Request ⟨0, []⟩).2.calls.filter Event.isGet).length
      = (([] : List Event).filter Event.isGet).length :=
  C10_machine_delete_failure_classified exampleHelpers
    (fixedDriver none (some notFoundError) none (.items [])) background ⟨"m1"⟩ exampleClass ⟨[]⟩
    0 [] notFoundError rfl rfl rfl

end Onmetal
